import Mathlib

/-!
Verification of the RET-CLIP dual-encoder model definition
(`RET_CLIP/clip/model.py`) against its natural-language specification.

The development shallowly embeds the pure data-transformation content of the
file: state-dict merging and rewriting (`restore_model`, `convert_state_dict`,
`resize_pos_embed`), the fp16/fp32 parameter conversion (`convert_weights`,
`convert_models_to_fp32`), the random token masking of the patch-transformer
backbone (`VisualTransformer.random_masking`), the text projection heads
(`CLIP.encode_text`), and a tensor-shape semantics of the image/forward paths
(`CLIP.encode_image`, `CLIP.forward`, `CLIP.get_similarity`).

Tensors are modelled as lists of exact rational (or abstract) entries, state
dicts as insertion-ordered association lists (mirroring Python dict
semantics), and fallible tensor operations return `Except String`, with shape
conformance checks mirroring the runtime checks of the tensor library.
External collaborators that the file merely calls (the BERT text backbone,
`F.interpolate`, the convolutional backbone internals) are taken as function
parameters, as the specification declares them out of scope.
-/

namespace RETCLIP

/-! ## Python-style string dictionaries (insertion-ordered association lists)

Python `dict` semantics: lookup finds the unique binding; assignment to an
existing key updates it in place, assignment to a new key appends at the end;
`dict` equality disregards insertion order. -/

/-- State dict over value type `V`: insertion-ordered list of string keyed bindings. -/
abbrev StateDict (V : Type) := List (String × V)

/-- Dictionary lookup (first binding wins; Python dicts never hold duplicates). -/
def StateDict.lookup {V : Type} (d : StateDict V) (k : String) : Option V :=
  List.lookup k d

/-- Python dict assignment `d[k] = v`: update the existing binding in place,
otherwise append the new binding at the end. -/
def StateDict.set {V : Type} (d : StateDict V) (k : String) (v : V) : StateDict V :=
  if d.any (fun kv => kv.1 == k) then
    d.map (fun kv => if kv.1 == k then (k, v) else kv)
  else
    d ++ [(k, v)]

/-- Python `str.startswith`, modelled recursively on the character lists so it is
kernel-computable. -/
def charLeads : List Char → List Char → Bool
  | [], _ => true
  | _ :: _, [] => false
  | p :: ps, c :: cs => p == c && charLeads ps cs

/-- Python `s.startswith(pat)`. -/
def pyStartswith (s pat : String) : Bool := charLeads pat.data s.data

/-- Python substring containment helper over character lists. -/
def charHasSub : List Char → List Char → Bool
  | cs, ps => charLeads ps cs ||
      match cs with
      | [] => false
      | _ :: cs' => charHasSub cs' ps

/-- Python `pat in s` (substring containment). -/
def pyIn (pat s : String) : Bool := charHasSub s.data pat.data

/-! ## Claim C5: the merged mapping built by `restore_model` (model.py 633-646)

The source builds `merged_state_dict` by iterating over `clip_state_dict`,
keeping keys that start with `"visual"` or equal `"logit_scale"`, then over
`bert_state_dict`, keeping keys that start with `"bert"` and do not contain
`"bert.pooler"`. -/

/-- Condition under which `restore_model` keeps a key of `clip_state_dict`
(model.py line 639: `k.startswith("visual") or k == "logit_scale"`). -/
def clipKeep (k : String) : Bool := pyStartswith k "visual" || k == "logit_scale"

/-- Condition under which `restore_model` keeps a key of `bert_state_dict`
(model.py line 645: `k.startswith("bert") and "bert.pooler" not in k`). -/
def bertKeep (k : String) : Bool := pyStartswith k "bert" && !(pyIn "bert.pooler" k)

/-- Merged mapping built at the top of `restore_model` (model.py 634-646): two
loops over the optional input dicts, inserting the kept bindings into an
initially empty dict. -/
def restore_model_merged {V : Type} (clip_state_dict bert_state_dict : Option (StateDict V)) :
    StateDict V :=
  let m0 : StateDict V := []
  let m1 := match clip_state_dict with
    | none => m0
    | some cs => cs.foldl (fun m kv => if clipKeep kv.1 then m.set kv.1 kv.2 else m) m0
  match bert_state_dict with
  | none => m1
  | some bs => bs.foldl (fun m kv => if bertKeep kv.1 then m.set kv.1 kv.2 else m) m1

/-- Setting a key absent from the dict appends the binding at the end. -/
theorem StateDict.set_fresh {V : Type} (d : StateDict V) (k : String) (v : V)
    (h : ∀ kv ∈ d, kv.1 ≠ k) : d.set k v = d ++ [(k, v)] := by
  unfold StateDict.set
  have hany : d.any (fun kv => kv.1 == k) = false := by
    rw [List.any_eq_false]
    intro kv hkv
    simpa using h kv hkv
  rw [hany]
  simp

/-- Characterization of the keep-loops of `restore_model`: folding `set` over the
entries passing the keep condition extends the accumulator with exactly the
kept entries, provided the kept keys are fresh and duplicate free. -/
theorem foldl_keep_eq_filter {V : Type} (cond : String → Bool) :
    ∀ (l : List (String × V)) (m : StateDict V),
      ((l.filter (fun kv => cond kv.1)).map Prod.fst).Nodup →
      (∀ kv ∈ l, cond kv.1 = true → ∀ kv' ∈ m, kv.1 ≠ kv'.1) →
      l.foldl (fun m kv => if cond kv.1 then m.set kv.1 kv.2 else m) m
        = m ++ l.filter (fun kv => cond kv.1)
  | [], m, _, _ => by simp
  | a :: l, m, hnodup, hdisj => by
    rw [List.foldl_cons]
    rw [List.filter_cons] at hnodup ⊢
    by_cases hca : cond a.1 = true
    · rw [if_pos hca] at hnodup ⊢
      have hfresh : ∀ kv' ∈ m, a.1 ≠ kv'.1 := hdisj a (by simp) hca
      have hset : m.set a.1 a.2 = m ++ [(a.1, a.2)] :=
        StateDict.set_fresh m a.1 a.2 (fun kv hkv => fun he => (hfresh kv hkv) he.symm)
      have hnodup2 : (a.1 :: (l.filter (fun kv => cond kv.1)).map Prod.fst).Nodup := by
        simpa using hnodup
      have hnodup' : ((l.filter (fun kv => cond kv.1)).map Prod.fst).Nodup :=
        (List.nodup_cons.1 hnodup2).2
      have hnotin : a.1 ∉ (l.filter (fun kv => cond kv.1)).map Prod.fst :=
        (List.nodup_cons.1 hnodup2).1
      have hdisj' : ∀ kv ∈ l, cond kv.1 = true → ∀ kv' ∈ m ++ [(a.1, a.2)], kv.1 ≠ kv'.1 := by
        intro kv hkv hc kv' hkv'
        rcases List.mem_append.1 hkv' with hm | ha
        · exact hdisj kv (by simp [hkv]) hc kv' hm
        · have : kv' = (a.1, a.2) := by simpa using ha
          subst this
          intro he
          exact hnotin (by
            refine List.mem_map.2 ⟨kv, ?_, he⟩
            exact List.mem_filter.2 ⟨hkv, hc⟩)
      have ih := foldl_keep_eq_filter cond l (m ++ [(a.1, a.2)]) hnodup' hdisj'
      rw [if_pos hca, hset, ih]
      simp
    · rw [if_neg hca] at hnodup ⊢
      have ih := foldl_keep_eq_filter cond l m hnodup
        (fun kv hkv hc => hdisj kv (by simp [hkv]) hc)
      rw [if_neg hca, ih]

/-- Looking a key up in a key-condition filter of a dict gives the original
binding when the key passes, nothing otherwise. -/
theorem lookup_filter {V : Type} (cond : String → Bool) (k : String) :
    ∀ l : List (String × V),
      List.lookup k (l.filter (fun kv => cond kv.1))
        = if cond k then List.lookup k l else none
  | [] => by simp
  | (a1, a2) :: l => by
    by_cases hca : cond a1 = true
    · by_cases hak : k = a1
      · subst hak
        simp [List.filter_cons, hca, List.lookup]
      · have hbeq : (k == a1) = false := by simpa using hak
        simp [List.filter_cons, hca, List.lookup, hbeq, lookup_filter cond k l]
    · have hca' : cond a1 = false := by simpa using hca
      by_cases hak : k = a1
      · subst hak
        simp [List.filter_cons, hca', List.lookup, lookup_filter cond k l]
      · have hbeq : (k == a1) = false := by simpa using hak
        simp [List.filter_cons, hca', List.lookup, hbeq, lookup_filter cond k l]

/-- First characters of prefix tests: if `charLeads (p :: ps) cs` then `cs` starts with `p`. -/
theorem charLeads_head {p : Char} {ps cs : List Char} (h : charLeads (p :: ps) cs = true) :
    ∃ cs', cs = p :: cs' := by
  cases cs with
  | nil => simp [charLeads] at h
  | cons c cs' =>
    simp only [charLeads] at h
    rw [Bool.and_eq_true] at h
    obtain ⟨h1, _⟩ := h
    exact ⟨cs', by rw [show p = c from by simpa using h1]⟩

/-- No key is kept both from the clip state dict and from the bert state dict:
the clip condition forces the key to start with `visual` (or be `logit_scale`),
the bert condition forces it to start with `bert`. -/
theorem clipKeep_bertKeep_disjoint (k : String) :
    ¬ (clipKeep k = true ∧ bertKeep k = true) := by
  rintro ⟨hc, hb⟩
  unfold clipKeep at hc
  unfold bertKeep at hb
  rw [Bool.or_eq_true] at hc
  rw [Bool.and_eq_true] at hb
  obtain ⟨hb1, _⟩ := hb
  rcases hc with hv | he
  · unfold pyStartswith at hv hb1
    have hv' : charLeads ('v' :: "isual".data) k.data = true := hv
    have hb' : charLeads ('b' :: "ert".data) k.data = true := hb1
    obtain ⟨cs1, h1⟩ := charLeads_head hv'
    obtain ⟨cs2, h2⟩ := charLeads_head hb'
    rw [h1] at h2
    have hh : some 'v' = some 'b' := congrArg List.head? h2
    simp at hh
  · have : k = "logit_scale" := by simpa using he
    subst this
    simp [pyStartswith, charLeads] at hb1

/-- Claim C5: the merged mapping built by `restore_model` holds a key if and only
if it is a clip key starting with `visual` (or exactly `logit_scale`), or a bert
key starting with `bert` and not containing `bert.pooler`; every kept key maps
to the value it had in its source dict, and all other keys are dropped.  Stated
as a complete characterization of lookups in the merged dict. -/
theorem restore_model_merged_spec {V : Type} (clip bert : StateDict V)
    (hc : (clip.map Prod.fst).Nodup) (hb : (bert.map Prod.fst).Nodup) (k : String) :
    (restore_model_merged (some clip) (some bert)).lookup k =
      if clipKeep k then clip.lookup k
      else if bertKeep k then bert.lookup k
      else none := by
  have hcf : ((clip.filter (fun kv => clipKeep kv.1)).map Prod.fst).Nodup := by
    have hsub : ((clip.filter (fun kv => clipKeep kv.1)).map Prod.fst).Sublist
        (clip.map Prod.fst) := List.Sublist.map _ (List.filter_sublist _)
    exact List.Nodup.sublist hsub hc
  have hbf : ((bert.filter (fun kv => bertKeep kv.1)).map Prod.fst).Nodup := by
    have hsub : ((bert.filter (fun kv => bertKeep kv.1)).map Prod.fst).Sublist
        (bert.map Prod.fst) := List.Sublist.map _ (List.filter_sublist _)
    exact List.Nodup.sublist hsub hb
  have h1 : clip.foldl (fun (m : StateDict V) kv => if clipKeep kv.1 then m.set kv.1 kv.2 else m)
        ([] : StateDict V)
      = clip.filter (fun kv => clipKeep kv.1) := by
    have := foldl_keep_eq_filter clipKeep clip ([] : StateDict V) hcf
      (by intro kv _ _ kv' h; simp at h)
    simpa using this
  have h2 : bert.foldl (fun (m : StateDict V) kv => if bertKeep kv.1 then m.set kv.1 kv.2 else m)
        (clip.filter (fun kv => clipKeep kv.1))
      = clip.filter (fun kv => clipKeep kv.1) ++ bert.filter (fun kv => bertKeep kv.1) := by
    refine foldl_keep_eq_filter bertKeep bert _ hbf ?_
    intro kv _ hkeep kv' hkv' he
    have hkv'filter := List.mem_filter.1 hkv'
    have : clipKeep kv.1 = true := by rw [he]; exact hkv'filter.2
    exact clipKeep_bertKeep_disjoint kv.1 ⟨this, hkeep⟩
  have hdef : restore_model_merged (some clip) (some bert)
      = bert.foldl (fun (m : StateDict V) kv => if bertKeep kv.1 then m.set kv.1 kv.2 else m)
          (clip.foldl (fun (m : StateDict V) kv => if clipKeep kv.1 then m.set kv.1 kv.2 else m)
            ([] : StateDict V)) := rfl
  rw [hdef, h1, h2]
  unfold StateDict.lookup
  rw [List.lookup_append, lookup_filter, lookup_filter]
  by_cases hck : clipKeep k = true
  · rcases hlk : List.lookup k clip with _ | v
    · have hnb : bertKeep k = false := by
        rcases hbk : bertKeep k with _ | _
        · rfl
        · exact absurd ⟨hck, hbk⟩ (clipKeep_bertKeep_disjoint k)
      simp [hck, hnb]
    · simp [hck, hlk]
  · have hck' : clipKeep k = false := by simpa using hck
    simp [hck']

/-- Witness for `restore_model_merged_spec` at concrete dicts: the visual and
logit-scale keys of the clip dict are kept, the pooler key of the bert dict is
dropped, and a stray clip key is dropped. -/
theorem restore_model_merged_spec_witness :
    ((([("visual.w", 1), ("logit_scale", 2), ("stray", 3)] : StateDict ℤ).map Prod.fst).Nodup
      ∧ (([("bert.a", 4), ("bert.pooler.w", 5)] : StateDict ℤ).map Prod.fst).Nodup)
    ∧ (restore_model_merged (some [("visual.w", 1), ("logit_scale", 2), ("stray", 3)])
          (some [("bert.a", 4), ("bert.pooler.w", 5)])).lookup "bert.a"
        = (if clipKeep "bert.a" then ([("visual.w", 1), ("logit_scale", 2), ("stray", 3)] : StateDict ℤ).lookup "bert.a"
           else if bertKeep "bert.a" then ([("bert.a", 4), ("bert.pooler.w", 5)] : StateDict ℤ).lookup "bert.a"
           else none) :=
  ⟨⟨by decide, by decide⟩,
    restore_model_merged_spec [("visual.w", 1), ("logit_scale", 2), ("stray", 3)]
      [("bert.a", 4), ("bert.pooler.w", 5)] (by decide) (by decide) "bert.a"⟩

/-! ## Claim C9: `resize_pos_embed` (model.py 716-747)

The stored table `visual.positional_embedding` is a list of embedding rows.
The bicubic interpolation `F.interpolate` (together with the reshapes/permutes
wrapped around it, model.py 735-742) belongs to the tensor runtime, an external
collaborator, and is taken as a function parameter `interpolate` from the old
grid size and the new grid size to the resampled grid rows. -/

/-- Shallow embedding of `resize_pos_embed(state_dict, model)`.  `visual_grid_size`
is `model.visual.grid_size` when that attribute exists (`None` models the
convolutional backbone, which has no `grid_size`).  The function returns the
updated state dict (the source mutates it in place). -/
def resize_pos_embed (interpolate : ℕ → ℕ × ℕ → List (List ℚ) → List (List ℚ))
    (state_dict : StateDict (List (List ℚ))) (visual_grid_size : Option (ℕ × ℕ))
    (pfx : String := "") : StateDict (List (List ℚ)) :=
  match state_dict.lookup (pfx ++ "visual.positional_embedding"), visual_grid_size with
  | none, _ => state_dict
  | some _, none => state_dict
  | some old_pos_embed, some grid_size =>
    let extra_tokens := 1
    let new_seq_len := grid_size.1 * grid_size.2 + extra_tokens
    if new_seq_len = old_pos_embed.length then state_dict
    else
      let pos_emb_tok := old_pos_embed.take extra_tokens
      let pos_emb_img := old_pos_embed.drop extra_tokens
      let old_grid_size := Nat.sqrt pos_emb_img.length
      let new_img := interpolate old_grid_size grid_size pos_emb_img
      state_dict.set (pfx ++ "visual.positional_embedding") (pos_emb_tok ++ new_img)

/-- Claim C9: when the stored visual positional-embedding table already has the
expected token count (grid cells plus one class-token slot), `resize_pos_embed`
returns the state dict completely unchanged, whatever the interpolation
collaborator does. -/
theorem resize_pos_embed_noop (interpolate : ℕ → ℕ × ℕ → List (List ℚ) → List (List ℚ))
    (state_dict : StateDict (List (List ℚ))) (grid_size : ℕ × ℕ) (pfx : String)
    (table : List (List ℚ))
    (hlook : state_dict.lookup (pfx ++ "visual.positional_embedding") = some table)
    (hlen : grid_size.1 * grid_size.2 + 1 = table.length) :
    resize_pos_embed interpolate state_dict (some grid_size) pfx = state_dict := by
  unfold resize_pos_embed
  rw [hlook]
  simp [hlen]

/-- Witness for `resize_pos_embed_noop`: a stored table of 2 rows and a 1×1 grid
(1 cell + 1 class token) is returned untouched. -/
theorem resize_pos_embed_noop_witness :
    (([(("visual.positional_embedding" : String), [[(1 : ℚ)], [2]])]
          : StateDict (List (List ℚ))).lookup ("" ++ "visual.positional_embedding")
        = some [[(1 : ℚ)], [2]]
      ∧ (1 : ℕ) * 1 + 1 = ([[(1 : ℚ)], [2]] : List (List ℚ)).length)
    ∧ resize_pos_embed (fun _ _ rows => rows)
        [("visual.positional_embedding", [[(1 : ℚ)], [2]])] (some (1, 1)) ""
      = [("visual.positional_embedding", [[(1 : ℚ)], [2]])] :=
  ⟨⟨by decide, by decide⟩,
    resize_pos_embed_noop (fun _ _ rows => rows)
      [("visual.positional_embedding", [[(1 : ℚ)], [2]])] (1, 1) "" [[(1 : ℚ)], [2]]
      (by decide) (by decide)⟩

/-! ## Claim C8: `convert_weights` and `convert_models_to_fp32` (model.py 578-630)

Parameters are modelled as tensors carrying a floating-point precision tag
(value contents are kept abstract under precision changes, since the claim is
about which precision each tensor ends up in), gradients as optional tensors.
Python truthiness of a tensor (`if p.grad:`, model.py lines 581 and 628) is
faithful to torch: `None` is falsy, a one-element tensor compares its value
with zero, and any other tensor raises `RuntimeError: Boolean value of Tensor
with more than one element is ambiguous`. -/

/-- Floating point precision tags. -/
inductive DType
  | f16
  | f32
deriving DecidableEq, Repr

/-- Tensor model for the precision-conversion utilities: a precision tag plus
the (flattened) entries. -/
structure PTensor where
  dtype : DType
  vals : List ℚ
deriving DecidableEq, Repr

/-- Tensor `.half()`: retag to half precision. -/
def PTensor.half (t : PTensor) : PTensor := { t with dtype := .f16 }

/-- Tensor `.float()`: retag to single precision. -/
def PTensor.float (t : PTensor) : PTensor := { t with dtype := .f32 }

/-- Model parameter: `p.data` plus the optional `p.grad`. -/
structure PParam where
  data : PTensor
  grad : Option PTensor
deriving DecidableEq, Repr

/-- Python truthiness of `p.grad`: `None` is falsy; a tensor is truthy exactly
when it has one element that is non-zero, and raises otherwise. -/
def gradTruthy (g : Option PTensor) : Except String Bool :=
  match g with
  | none => .ok false
  | some t =>
    match t.vals with
    | [v] => .ok (decide (v ≠ 0))
    | [] => .error "RuntimeError: Boolean value of Tensor with no values is ambiguous"
    | _ => .error "RuntimeError: Boolean value of Tensor with more than one element is ambiguous"

/-- Shallow embedding of `convert_weights` (model.py 626-629): for each
parameter, `param.data = param.data.half()`, then `if param.grad:
param.grad.data = param.grad.data.float()`.  (Note the source converts the
gradient to `float`, not `half`.) -/
def convert_weights (params : List PParam) : Except String (List PParam) :=
  params.mapM (fun p =>
    let p := { p with data := p.data.half }
    (gradTruthy p.grad).map (fun b =>
      if b then { p with grad := p.grad.map PTensor.float } else p))

/-- Shallow embedding of `convert_models_to_fp32` (model.py 578-582): for each
parameter, `p.data = p.data.float()`, then `if p.grad: p.grad.data =
p.grad.data.float()`. -/
def convert_models_to_fp32 (params : List PParam) : Except String (List PParam) :=
  params.mapM (fun p =>
    let p := { p with data := p.data.float }
    (gradTruthy p.grad).map (fun b =>
      if b then { p with grad := p.grad.map PTensor.float } else p))

/-- Claim C8 fails on the code in three ways, each shown at a concrete model:
(1) a parameter with a two-element gradient makes `convert_weights` raise on the
tensor truthiness test instead of converting; (2) for a one-element non-zero
gradient, `convert_weights` leaves the gradient in full precision (the source
calls `.float()`, not `.half()`, on gradients); (3) `convert_models_to_fp32`
skips a present zero-valued scalar gradient entirely. -/
theorem convert_weights_gradient_bugs :
    convert_weights [⟨⟨.f32, [1, 2]⟩, some ⟨.f32, [3, 4]⟩⟩]
        = .error "RuntimeError: Boolean value of Tensor with more than one element is ambiguous"
    ∧ convert_weights [⟨⟨.f32, [1]⟩, some ⟨.f32, [5]⟩⟩]
        = .ok [⟨⟨.f16, [1]⟩, some ⟨.f32, [5]⟩⟩]
    ∧ convert_models_to_fp32 [⟨⟨.f16, [1]⟩, some ⟨.f16, [0]⟩⟩]
        = .ok [⟨⟨.f32, [1]⟩, some ⟨.f16, [0]⟩⟩] := by
  refine ⟨rfl, rfl, rfl⟩

/-! ## Claim C7: the text projection heads of `CLIP.encode_text` (model.py 430-438, 526-534)

Each head is `nn.Sequential(nn.Linear(h, h), nn.ReLU(), nn.Linear(h, embed_dim))`
applied to the hidden state at position 0 (the `[CLS]` slot) of the text
backbone output.  Vectors are lists of exact rationals; the BERT backbone is an
external collaborator taken as a function from token ids and attention mask to
per-token hidden states. -/

/-- Vector of exact rational entries. -/
abbrev Vec := List ℚ

/-- Matrix as a list of rows. -/
abbrev Mat := List Vec

/-- Dot product. -/
def dot (u v : Vec) : ℚ := (List.zipWith (· * ·) u v).sum

/-- Matrix-vector product. -/
def matVec (w : Mat) (x : Vec) : Vec := w.map (fun row => dot row x)

/-- Vector sum. -/
def vecAdd (u v : Vec) : Vec := List.zipWith (· + ·) u v

/-- Scalar multiple of a vector. -/
def vecSmul (a : ℚ) (v : Vec) : Vec := v.map (fun x => a * x)

/-- Torch `nn.Linear`: an affine map `x ↦ W x + b`. -/
structure LinearM where
  weight : Mat
  bias : Vec

/-- Application of a linear layer. -/
def LinearM.apply (l : LinearM) (x : Vec) : Vec := vecAdd (matVec l.weight x) l.bias

/-- Elementwise `nn.ReLU`. -/
def reluVec (x : Vec) : Vec := x.map (fun v => max v 0)

/-- One text projection head: `nn.Sequential(nn.Linear(h, h), nn.ReLU(), nn.Linear(h, e))`
(model.py 430-438). -/
structure TextProjection where
  fc1 : LinearM
  fc2 : LinearM

/-- Application of a text projection head: second linear after ReLU after first linear. -/
def TextProjection.apply (h : TextProjection) (x : Vec) : Vec :=
  h.fc2.apply (reluVec (h.fc1.apply x))

/-- Shallow embedding of `CLIP.encode_text` (model.py 526-534): build the
attention mask from the pad token id, run the BERT collaborator, take the
hidden state at position 0 of each sequence, and apply the three projection
heads to that same vector. -/
def encode_text (bert : List (List ℤ) → List (List Bool) → List (List Vec))
    (pad_index : ℤ) (text_projection text_projection_left text_projection_right : TextProjection)
    (text : List (List ℤ)) : List Vec × List Vec × List Vec :=
  let attn_mask := text.map (fun seq => seq.map (fun t => decide (t ≠ pad_index)))
  let x := bert text attn_mask
  let cls := x.map (fun seq => seq.getD 0 [])
  (cls.map text_projection.apply,
   cls.map text_projection_left.apply,
   cls.map text_projection_right.apply)

/-- Counterexample to claim C7: a text projection head with unit weights and
zero biases in both linear layers is not a linear function of its input — with
`u = [1]`, `v = [-1]`, `a = 1` the head value at `a·u + v` differs from
`a·head(u) + head(v)`, because of the ReLU between the two linear layers. -/
theorem text_projection_not_linear :
    ¬ (TextProjection.apply ⟨⟨[[1]], [0]⟩, ⟨[[1]], [0]⟩⟩
          (vecAdd (vecSmul 1 [1]) [-1])
        = vecAdd (vecSmul 1 (TextProjection.apply ⟨⟨[[1]], [0]⟩, ⟨[[1]], [0]⟩⟩ [1]))
            (TextProjection.apply ⟨⟨[[1]], [0]⟩, ⟨[[1]], [0]⟩⟩ [-1])) := by
  norm_num [TextProjection.apply, LinearM.apply, reluVec, matVec, vecAdd, vecSmul, dot,
    List.zipWith, max_def]

/-- Amended claim C7: the three text projection heads applied by `encode_text`
are three independent two-layer perceptrons (linear, ReLU, linear) evaluated on
the same `[CLS]`-position hidden vector of each sequence; in particular the
output depends on the backbone hidden states only through that `[CLS]` vector.
(They are not linear maps; see `text_projection_not_linear`.) -/
theorem encode_text_heads_mlp_of_cls
    (bert bert' : List (List ℤ) → List (List Bool) → List (List Vec))
    (pad_index : ℤ) (tp tpl tpr : TextProjection) (text : List (List ℤ))
    (hcls : (bert text (text.map (fun seq => seq.map (fun t => decide (t ≠ pad_index))))).map
          (fun seq => seq.getD 0 [])
        = (bert' text (text.map (fun seq => seq.map (fun t => decide (t ≠ pad_index))))).map
          (fun seq => seq.getD 0 [])) :
    encode_text bert pad_index tp tpl tpr text = encode_text bert' pad_index tp tpl tpr text
    ∧ encode_text bert pad_index tp tpl tpr text =
        (((bert text (text.map (fun seq => seq.map (fun t => decide (t ≠ pad_index))))).map
            (fun seq => seq.getD 0 [])).map
              (fun c => tp.fc2.apply (reluVec (tp.fc1.apply c))),
         ((bert text (text.map (fun seq => seq.map (fun t => decide (t ≠ pad_index))))).map
            (fun seq => seq.getD 0 [])).map
              (fun c => tpl.fc2.apply (reluVec (tpl.fc1.apply c))),
         ((bert text (text.map (fun seq => seq.map (fun t => decide (t ≠ pad_index))))).map
            (fun seq => seq.getD 0 [])).map
              (fun c => tpr.fc2.apply (reluVec (tpr.fc1.apply c)))) := by
  constructor
  · simp only [encode_text]
    rw [hcls]
  · rfl

/-- Witness for `encode_text_heads_mlp_of_cls`: two backbones that agree at the
`[CLS]` position (but differ elsewhere) give identical `encode_text` results,
which expose the two-layer structure of each head. -/
theorem encode_text_heads_mlp_of_cls_witness :
    encode_text (fun _ _ => [[[1], [5]]]) 0 ⟨⟨[[1]], [0]⟩, ⟨[[1]], [0]⟩⟩
        ⟨⟨[[2]], [0]⟩, ⟨[[1]], [0]⟩⟩ ⟨⟨[[3]], [0]⟩, ⟨[[1]], [0]⟩⟩ [[7]]
      = encode_text (fun _ _ => [[[1], [9]]]) 0 ⟨⟨[[1]], [0]⟩, ⟨[[1]], [0]⟩⟩
        ⟨⟨[[2]], [0]⟩, ⟨[[1]], [0]⟩⟩ ⟨⟨[[3]], [0]⟩, ⟨[[1]], [0]⟩⟩ [[7]] :=
  (encode_text_heads_mlp_of_cls (fun _ _ => [[[1], [5]]]) (fun _ _ => [[[1], [9]]]) 0
    ⟨⟨[[1]], [0]⟩, ⟨[[1]], [0]⟩⟩ ⟨⟨[[2]], [0]⟩, ⟨[[1]], [0]⟩⟩ ⟨⟨[[3]], [0]⟩, ⟨[[1]], [0]⟩⟩
    [[7]] (by decide)).1

/-! ## Claim C6: `VisualTransformer.random_masking` (model.py 297-311)

Token sequences are lists of rows, each row a list of tokens of an abstract
token type (one token stands for one `D`-dimensional slice).  The random noise
drawn by `torch.rand(N, L-1)` is an input parameter; `torch.argsort` is
realized as an insertion sort of the indices by ascending noise value (the
torch sort is unstable, so any tie order is a faithful realization; random
noise has no ties almost surely). -/

/-- Torch `argsort` of one noise row: the indices `0..n-1` ordered by ascending
value (ties broken by index). -/
def argsort (noise : List ℚ) : List ℕ :=
  List.insertionSort
    (fun i j => noise.getD i 0 < noise.getD j 0 ∨ (noise.getD i 0 = noise.getD j 0 ∧ i ≤ j))
    (List.range noise.length)

/-- Shallow embedding of `VisualTransformer.random_masking` (model.py 297-311):
`len_keep = int((L-1)*(1-mask_ratio))`; per row, the kept patch indices are the
first `len_keep` entries of `argsort(noise) + 1`, gathered from the row, and
the class token at position 0 is re-prepended. -/
def random_masking {τ : Type} [Inhabited τ] (x : List (List τ)) (noise : List (List ℚ))
    (mask_ratio : ℚ) : List (List τ) :=
  let L := (x.getD 0 []).length
  let len_keep := (Int.floor ((L - 1 : ℚ) * (1 - mask_ratio))).toNat
  (List.zip x noise).map (fun p =>
    let ids_shuffle := (argsort p.2).map (· + 1)
    let ids_keep := ids_shuffle.take len_keep
    let x_masked := ids_keep.map (fun i => p.1.getD i default)
    p.1.getD 0 default :: x_masked)

/-- Permutation content of `argsort`: it reorders exactly the indices `0..n-1`. -/
theorem argsort_perm (noise : List ℚ) : (argsort noise).Perm (List.range noise.length) :=
  List.perm_insertionSort _ _

/-- Kept-token count bound: the floor of `(L-1)*(1-r)` is at most `L-1` when `0 ≤ r`. -/
theorem len_keep_le (M : ℕ) (r : ℚ) (hr0 : 0 ≤ r) (hr1 : r ≤ 1) :
    (Int.floor ((M : ℚ) * (1 - r))).toNat ≤ M := by
  have h1 : (M : ℚ) * (1 - r) ≤ (M : ℚ) := by
    have : (1 - r) ≤ 1 := by linarith
    exact mul_le_of_le_one_right (by positivity) this
  have h2 : Int.floor ((M : ℚ) * (1 - r)) ≤ Int.floor ((M : ℚ)) := Int.floor_le_floor h1
  have h3 : Int.floor ((M : ℚ)) = (M : ℤ) := Int.floor_natCast M
  have h4 : Int.floor ((M : ℚ) * (1 - r)) ≤ (M : ℤ) := by rw [h3] at h2; exact h2
  have := Int.toNat_le_toNat h4
  simpa using this

/-- Claim C6: on a batch of rows of common length `L ≥ 1` with per-row noise of
length `L-1` and a mask ratio in `(0,1)`, every output row has length
`⌊(L-1)·(1-mask_ratio)⌋ + 1`, starts with that row's token at position 0 (the
class token is always retained), and its remaining tokens are a gather of the
row at a duplicate-free list of per-row indices in `1..L-1` (dropped tokens are
absent, not zeroed). -/
theorem random_masking_spec {τ : Type} [Inhabited τ] (x : List (List τ))
    (noise : List (List ℚ)) (mask_ratio : ℚ) (L : ℕ)
    (hL : 1 ≤ L)
    (hrows : ∀ row ∈ x, row.length = L)
    (hne : x ≠ [])
    (hnoise : noise.length = x.length)
    (hnrows : ∀ nr ∈ noise, nr.length = L - 1)
    (hr0 : 0 < mask_ratio) (hr1 : mask_ratio < 1) :
    (random_masking x noise mask_ratio).length = x.length ∧
    ∀ n, n < x.length →
      ((random_masking x noise mask_ratio).getD n []).length
          = (Int.floor ((L - 1 : ℚ) * (1 - mask_ratio))).toNat + 1 ∧
      ((random_masking x noise mask_ratio).getD n []).head?
          = some ((x.getD n []).getD 0 default) ∧
      ∃ ids : List ℕ, ids.Nodup ∧ (∀ i ∈ ids, 1 ≤ i ∧ i < L) ∧
        ((random_masking x noise mask_ratio).getD n []).tail
          = ids.map (fun i => (x.getD n []).getD i default) := by
  have hL0 : (x.getD 0 []).length = L := by
    cases x with
    | nil => exact absurd rfl hne
    | cons r rs => exact hrows r (by simp)
  have hMQ : ((L : ℚ) - 1) = ((L - 1 : ℕ) : ℚ) := by
    have : ((L - 1 : ℕ) : ℚ) = (L : ℚ) - 1 := by
      push_cast [hL]
      ring
    exact this.symm
  have hlenkeep : (Int.floor ((L - 1 : ℚ) * (1 - mask_ratio))).toNat ≤ L - 1 := by
    have := len_keep_le (L - 1) mask_ratio (le_of_lt hr0) (le_of_lt hr1)
    rw [← hMQ] at this
    exact this
  have hziplen : (List.zip x noise).length = x.length := by
    rw [List.length_zip, hnoise]
    exact Nat.min_self _
  have hlen : (random_masking x noise mask_ratio).length = x.length := by
    simp only [random_masking]
    rw [List.length_map]
    exact hziplen
  refine ⟨hlen, ?_⟩
  · intro n hn
    have hnz : n < (List.zip x noise).length := by rw [hziplen]; exact hn
    have hxe : x.getD n [] = x[n] := List.getD_eq_getElem x [] hn
    have hnoisen : n < noise.length := by rw [hnoise]; exact hn
    have hnlt : n < (random_masking x noise mask_ratio).length := by rw [hlen]; exact hn
    have hrow : (random_masking x noise mask_ratio).getD n []
        = (x[n]).getD 0 default ::
          ((((argsort (noise[n])).map (· + 1)).take
              ((Int.floor (((x.getD 0 []).length - 1 : ℚ) * (1 - mask_ratio))).toNat)).map
            (fun i => (x[n]).getD i default)) := by
      rw [List.getD_eq_getElem _ [] hnlt]
      simp only [random_masking]
      simp [List.getElem_map, List.getElem_zip]
    have hargl : (argsort (noise[n])).length = L - 1 := by
      have hperm := argsort_perm (noise[n])
      rw [hperm.length_eq, List.length_range]
      exact hnrows _ (List.getElem_mem _)
    have htakelen :
        ((((argsort (noise[n])).map (· + 1)).take
            ((Int.floor (((x.getD 0 []).length - 1 : ℚ) * (1 - mask_ratio))).toNat))).length
          = (Int.floor ((L - 1 : ℚ) * (1 - mask_ratio))).toNat := by
      rw [List.length_take, List.length_map, hargl, hL0]
      exact Nat.min_eq_left hlenkeep
    refine ⟨?_, ?_, ?_⟩
    · rw [hrow]
      simp only [List.length_cons, List.length_map]
      rw [htakelen]
    · rw [hrow, hxe]
      rfl
    · refine ⟨(((argsort (noise[n])).map (· + 1)).take
          ((Int.floor (((x.getD 0 []).length - 1 : ℚ) * (1 - mask_ratio))).toNat)), ?_, ?_, ?_⟩
      · have hperm := argsort_perm (noise[n])
        have hnodup : (argsort (noise[n])).Nodup :=
          hperm.symm.nodup (List.nodup_range _)
        have hmapnodup : ((argsort (noise[n])).map (· + 1)).Nodup :=
          hnodup.map (fun a b => by omega)
        exact hmapnodup.sublist (List.take_sublist _ _)
      · intro i hi
        have hi' : i ∈ (argsort (noise[n])).map (· + 1) :=
          (List.take_sublist _ _).mem hi
        obtain ⟨j, hj, hji⟩ := List.mem_map.1 hi'
        have hjr : j ∈ List.range (noise[n]).length := (argsort_perm _).mem_iff.1 hj
        have hjlt : j < L - 1 := by
          rw [List.mem_range] at hjr
          rw [hnrows _ (List.getElem_mem _)] at hjr
          exact hjr
        omega
      · rw [hrow, hxe]
        rfl

/-- Witness for `random_masking_spec`: one row `[10, 20, 30]` (so `L = 3`), noise
`[2, 1]`, mask ratio `1/2`: the kept count is `⌊2·(1/2)⌋ = 1`, the class token
is retained, and one patch token survives. -/
theorem random_masking_spec_witness :
    (random_masking [[(10 : ℤ), 20, 30]] [[(2 : ℚ), 1]] (1/2)).length = 1 ∧
    ∀ n, n < ([[(10 : ℤ), 20, 30]] : List (List ℤ)).length →
      ((random_masking [[(10 : ℤ), 20, 30]] [[(2 : ℚ), 1]] (1/2)).getD n []).length
          = (Int.floor ((3 - 1 : ℚ) * (1 - 1/2))).toNat + 1 ∧
      ((random_masking [[(10 : ℤ), 20, 30]] [[(2 : ℚ), 1]] (1/2)).getD n []).head?
          = some ((([[(10 : ℤ), 20, 30]] : List (List ℤ)).getD n []).getD 0 default) ∧
      ∃ ids : List ℕ, ids.Nodup ∧ (∀ i ∈ ids, 1 ≤ i ∧ i < 3) ∧
        ((random_masking [[(10 : ℤ), 20, 30]] [[(2 : ℚ), 1]] (1/2)).getD n []).tail
          = ids.map (fun i => (([[(10 : ℤ), 20, 30]] : List (List ℤ)).getD n []).getD i default) :=
  random_masking_spec [[(10 : ℤ), 20, 30]] [[(2 : ℚ), 1]] (1/2) 3
    (by norm_num) (by intro row hr; simp at hr; simp [hr]) (by simp)
    (by simp) (by intro nr hnr; simp at hnr; simp [hnr]) (by norm_num) (by norm_num)

/-! ## Shape semantics of the image tower and the CLIP dispatch (claims C1, C2, C3, C10)

These claims are about which outputs (and output shapes) the encode/forward
paths produce, so tensors are modelled by their shapes and every tensor
operation checks shape conformance exactly as the tensor runtime does,
returning `Except String`.  The convolutional backbone `ModifiedResNet.forward`
is a stage pipeline none of these claims inspect; it enters as an abstract
shape function.  The patch-transformer forward (model.py 313-336) is embedded
step by step. -/

/-- Tensor shape: the list of dimension sizes. -/
abbrev Shape := List ℕ

/-- Fallible tensor computation. -/
abbrev TM (α : Type) := Except String α

/-- Success test for a fallible computation. -/
def isOkE {α : Type} : Except String α → Bool
  | .ok _ => true
  | .error _ => false

/-- Shape semantics of `nn.Linear(in_features, out_features)`: the last input
dimension must equal `in_features` and becomes `out_features`. -/
def linearShape (in_features out_features : ℕ) (s : Shape) : TM Shape :=
  match s.getLast? with
  | none => .error "RuntimeError: linear on a tensor with no dimensions"
  | some d =>
    if d = in_features then .ok (s.dropLast ++ [out_features])
    else .error "RuntimeError: mat1 and mat2 shapes cannot be multiplied"

/-- Shape semantics of `torch.cat((a, b), dim)`: equal ranks, equal sizes away
from `dim`, sizes added at `dim`. -/
def torchCat (dim : ℕ) (s t : Shape) : TM Shape :=
  if h : s.length = t.length ∧ dim < s.length
      ∧ ∀ i < s.length, i ≠ dim → s.getD i 0 = t.getD i 0 then
    .ok (s.set dim (s.getD dim 0 + t.getD dim 0))
  else .error "RuntimeError: Sizes of tensors must match except in dimension"

/-- Shape semantics of `nn.Conv2d(cin, cout, kernel_size=k, stride=stride, padding=pad)`. -/
def conv2dShape (cin cout k stride pad : ℕ) (s : Shape) : TM Shape :=
  match s with
  | [n, c, h, w] =>
    if c = cin ∧ k ≤ h + 2 * pad ∧ k ≤ w + 2 * pad then
      .ok [n, cout, (h + 2 * pad - k) / stride + 1, (w + 2 * pad - k) / stride + 1]
    else .error "RuntimeError: conv2d input shape mismatch"
  | _ => .error "RuntimeError: conv2d expects a 4d input"

/-- Shape semantics of `LayerNorm(w)`: the last dimension must equal `w`. -/
def layerNormShape (w : ℕ) (s : Shape) : TM Shape :=
  if s.getLast? = some w then .ok s
  else .error "RuntimeError: LayerNorm normalized shape mismatch"

/-- Shape semantics of `nn.MultiheadAttention(d_model, n_head)` applied as
`attn(x, x, x)` on an `[L, N, E]` input: `E` must equal `d_model`. -/
def mhaShape (d_model : ℕ) (s : Shape) : TM Shape :=
  match s with
  | [l, n, e] =>
    if e = d_model then .ok [l, n, e]
    else .error "RuntimeError: attention embed dim mismatch"
  | _ => .error "RuntimeError: attention expects a 3d input"

/-- Shape semantics of the residual elementwise add. -/
def addShape (s t : Shape) : TM Shape :=
  if s = t then .ok s else .error "RuntimeError: elementwise add shape mismatch"

/-- Shape semantics of adding the `[P, D]` positional-embedding parameter onto
an `[N, L, D]` activation (torch broadcasting aligns trailing dimensions, a
size-1 dimension stretches). -/
def addBroadcastRows (s p : Shape) : TM Shape :=
  match s, p with
  | [n, l, d], [pl, pd] =>
    if (pl = l ∨ pl = 1) ∧ (pd = d ∨ pd = 1) then .ok [n, l, d]
    else .error "RuntimeError: broadcast shape mismatch"
  | _, _ => .error "RuntimeError: broadcast expects a 3d and a 2d operand"

/-- Shape semantics of `x.permute(1, 0, 2)`. -/
def permute102 (s : Shape) : TM Shape :=
  match s with
  | [a, b, c] => .ok [b, a, c]
  | _ => .error "RuntimeError: permute expects a 3d input"

/-- Shape semantics of `x.permute(0, 2, 1)`. -/
def permute021 (s : Shape) : TM Shape :=
  match s with
  | [a, b, c] => .ok [a, c, b]
  | _ => .error "RuntimeError: permute expects a 3d input"

/-- Shape semantics of `VisualTransformer.random_masking` (see `random_masking`
for the value-level embedding): the sequence length `L` becomes
`int((L-1)*(1-mask_ratio)) + 1`. -/
def randomMaskingShape (mask_ratio : ℚ) (s : Shape) : TM Shape :=
  match s with
  | [n, l, d] => .ok [n, (Int.floor ((l - 1 : ℚ) * (1 - mask_ratio))).toNat + 1, d]
  | _ => .error "RuntimeError: random_masking expects a 3d input"

/-- Shape semantics of one `ResidualAttentionBlock.forward` (model.py 248-251):
`x + attn(ln_1(x))`, then `x + mlp(ln_2(x))` with the `width → 4·width → width`
feed-forward. -/
def resblockShape (d_model : ℕ) (s : Shape) : TM Shape := do
  let a ← layerNormShape d_model s
  let a ← mhaShape d_model a
  let x ← addShape s a
  let b ← layerNormShape d_model x
  let b ← linearShape d_model (4 * d_model) b
  let b ← linearShape (4 * d_model) d_model b
  addShape x b

/-- Shape semantics of `Transformer.forward`: the `layers` residual blocks
applied in sequence. -/
def transformerShape (width : ℕ) : ℕ → Shape → TM Shape
  | 0, s => .ok s
  | k + 1, s => do
    let s' ← resblockShape width s
    transformerShape width k s'

/-- Constructor-time configuration of `VisualTransformer` (model.py 274-291). -/
structure VTCfg where
  input_resolution : ℕ
  patch_size : ℕ
  width : ℕ
  layers : ℕ
  heads : ℕ
  output_dim : ℕ
deriving DecidableEq, Repr

/-- Shape semantics of `x.reshape(x.shape[0], x.shape[1], -1)` on a 4d input
(model.py 315). -/
def reshapeFlatten3 (s : Shape) : TM Shape :=
  match s with
  | [n, c, h, w] => .ok [n, c, h * w]
  | _ => .error "RuntimeError: reshape expects a 4d input"

/-- Shape semantics of prepending the class token (model.py 317-319):
`torch.cat([class_embedding + zeros(N, 1, width), x], dim=1)`. -/
def catClassToken (s : Shape) : TM Shape :=
  match s with
  | [n, l, c] => torchCat 1 [n, 1, c] [n, l, c]
  | _ => .error "RuntimeError: cat expects 3d operands"

/-- Shape semantics of the conditional masking (model.py 321-322):
`if mask_ratio != 0: x = self.random_masking(x, mask_ratio)`. -/
def maybeMask (mask_ratio : ℚ) (s : Shape) : TM Shape :=
  if mask_ratio ≠ 0 then randomMaskingShape mask_ratio s else pure s

/-- Shape semantics of the class-token slice `x[:, 0, :]` (model.py 333). -/
def clsSlice (s : Shape) : TM Shape :=
  match s with
  | [n, l, d] =>
    if 1 ≤ l then .ok [n, d]
    else .error "IndexError: index 0 is out of bounds"
  | _ => .error "RuntimeError: class-token slice expects a 3d input"

/-- Shape semantics of the 2d matrix product `x @ proj` (model.py 335). -/
def matmul2d (s t : Shape) : TM Shape :=
  match s, t with
  | [n, a], [b, c] =>
    if a = b then .ok [n, c]
    else .error "RuntimeError: mat1 and mat2 shapes cannot be multiplied"
  | _, _ => .error "RuntimeError: matmul expects 2d operands"

/-- Shape semantics of `VisualTransformer.forward` (model.py 313-336): patchify
by the strided convolution, flatten and transpose, prepend the class token, add
the positional embedding, optionally mask, pre-normalize, run the transformer,
then either return the post-normalized full sequence (`return_all_features`) or
project the post-normalized class token to `output_dim`. -/
def vitForwardShape (cfg : VTCfg) (x : Shape) (mask_ratio : ℚ)
    (return_all_features : Bool) : TM Shape := do
  let x ← conv2dShape 3 cfg.width cfg.patch_size cfg.patch_size 0 x
  let x ← reshapeFlatten3 x
  let x ← permute021 x
  let x ← catClassToken x
  let x ← addBroadcastRows x [(cfg.input_resolution / cfg.patch_size) ^ 2 + 1, cfg.width]
  let x ← maybeMask mask_ratio x
  let x ← layerNormShape cfg.width x
  let x ← permute102 x
  let x ← transformerShape cfg.width cfg.layers x
  if return_all_features then do
    let x ← layerNormShape cfg.width x
    permute102 x
  else do
    let x ← permute102 x
    let x ← clsSlice x
    let x ← layerNormShape cfg.width x
    matmul2d x [cfg.width, cfg.output_dim]

/-- Inversion for `Except` binds: a successful bind factors through a successful
first component. -/
theorem exceptBind_ok {α β : Type} {a : TM α} {f : α → TM β} {v : β}
    (h : (a >>= f) = .ok v) : ∃ w, a = .ok w ∧ f w = .ok v := by
  cases a with
  | ok w => exact ⟨w, rfl, h⟩
  | error e => exact absurd h (by simp [Bind.bind, Except.bind])

/-- Inversion for `layerNormShape`. -/
theorem layerNormShape_ok {w : ℕ} {s t : Shape} (h : layerNormShape w s = .ok t) :
    t = s ∧ s.getLast? = some w := by
  unfold layerNormShape at h
  by_cases hc : s.getLast? = some w
  · rw [if_pos hc] at h
    exact ⟨(Except.ok.injEq .. ▸ h).symm, hc⟩
  · rw [if_neg hc] at h
    exact absurd h (by simp)

/-- Inversion for `permute102`. -/
theorem permute102_ok {s t : Shape} (h : permute102 s = .ok t) :
    ∃ a b c, s = [a, b, c] ∧ t = [b, a, c] := by
  rcases s with _ | ⟨a, _ | ⟨b, _ | ⟨c, _ | ⟨d, rest⟩⟩⟩⟩ <;>
    simp [permute102] at h
  exact ⟨a, b, c, rfl, h.symm⟩

/-- Every successful `return_all_features` pass of the patch transformer ends in
an `[N, L, width]` token sequence: the last dimension is the transformer width,
not the projection dimension. -/
theorem vitForwardShape_all_features_shape {cfg : VTCfg} {x : Shape} {mr : ℚ} {s : Shape}
    (h : vitForwardShape cfg x mr true = .ok s) :
    ∃ n l, s = [n, l, cfg.width] := by
  unfold vitForwardShape at h
  obtain ⟨x1, _, h⟩ := exceptBind_ok h
  obtain ⟨x2, _, h⟩ := exceptBind_ok h
  obtain ⟨x3, _, h⟩ := exceptBind_ok h
  obtain ⟨x4, _, h⟩ := exceptBind_ok h
  obtain ⟨x5, _, h⟩ := exceptBind_ok h
  obtain ⟨x6, _, h⟩ := exceptBind_ok h
  obtain ⟨x7, _, h⟩ := exceptBind_ok h
  obtain ⟨x8, _, h⟩ := exceptBind_ok h
  obtain ⟨x9, _, h⟩ := exceptBind_ok h
  rw [if_pos rfl] at h
  obtain ⟨x10, hln, hperm⟩ := exceptBind_ok h
  obtain ⟨heq, hlast⟩ := layerNormShape_ok hln
  obtain ⟨a, b, c, hx10, hs⟩ := permute102_ok hperm
  subst hx10
  have : c = cfg.width := by
    subst heq
    simpa using hlast
  exact ⟨b, a, this ▸ hs⟩

/-- Definitional computation of binds over successful results. -/
theorem tmBind_ok {α β : Type} (a : α) (f : α → TM β) :
    ((Except.ok a : TM α) >>= f) = f a := rfl

/-- Definitional computation of binds over failed results. -/
theorem tmBind_error {α β : Type} (e : String) (f : α → TM β) :
    ((Except.error e : TM α) >>= f) = .error e := rfl

/-- One residual attention block is shape preserving on `[a, b, width]` inputs. -/
theorem resblockShape_fixed (w a b : ℕ) : resblockShape w [a, b, w] = .ok [a, b, w] := by
  simp [resblockShape, layerNormShape, mhaShape, addShape, linearShape, tmBind_ok,
    List.getLast?]

/-- The transformer stack is shape preserving on `[a, b, width]` inputs. -/
theorem transformerShape_fixed (w a b : ℕ) :
    ∀ k, transformerShape w k [a, b, w] = .ok [a, b, w]
  | 0 => rfl
  | k + 1 => by
    simp only [transformerShape, resblockShape_fixed, tmBind_ok]
    exact transformerShape_fixed w a b k

/-- Computation rule for `torchCat` at dimension 1 on rank-3 shapes. -/
theorem torchCat1_3d (a b c a' b' c' : ℕ) :
    torchCat 1 [a, b, c] [a', b', c']
      = if a = a' ∧ c = c' then .ok [a, b + b', c]
        else .error "RuntimeError: Sizes of tensors must match except in dimension" := by
  unfold torchCat
  by_cases hc : a = a' ∧ c = c'
  · have hcond : ([a, b, c] : Shape).length = ([a', b', c'] : Shape).length
        ∧ 1 < ([a, b, c] : Shape).length
        ∧ ∀ i < ([a, b, c] : Shape).length, i ≠ 1 →
            ([a, b, c] : Shape).getD i 0 = ([a', b', c'] : Shape).getD i 0 := by
      refine ⟨rfl, by simp, ?_⟩
      intro i hi hne
      simp only [List.length_cons, List.length_nil] at hi
      interval_cases i
      · exact hc.1
      · exact absurd rfl hne
      · exact hc.2
    rw [dif_pos hcond, if_pos hc]
    rfl
  · have hcond : ¬ (([a, b, c] : Shape).length = ([a', b', c'] : Shape).length
        ∧ 1 < ([a, b, c] : Shape).length
        ∧ ∀ i < ([a, b, c] : Shape).length, i ≠ 1 →
            ([a, b, c] : Shape).getD i 0 = ([a', b', c'] : Shape).getD i 0) := by
      rintro ⟨-, -, hall⟩
      exact hc ⟨hall 0 (by simp) (by decide), hall 2 (by simp) (by decide)⟩
    rw [dif_neg hcond, if_neg hc]

/-- Computation rule for `conv2dShape` on rank-4 shapes. -/
theorem conv2dShape_4d (cin cout k st pad n c h w : ℕ) :
    conv2dShape cin cout k st pad [n, c, h, w]
      = if c = cin ∧ k ≤ h + 2 * pad ∧ k ≤ w + 2 * pad then
          .ok [n, cout, (h + 2 * pad - k) / st + 1, (w + 2 * pad - k) / st + 1]
        else .error "RuntimeError: conv2d input shape mismatch" := rfl

/-- Computation rule for `catClassToken` on rank-3 shapes. -/
theorem catClassToken_3d (n l c : ℕ) :
    catClassToken [n, l, c] = torchCat 1 [n, 1, c] [n, l, c] := rfl

/-- Computation rule for `addBroadcastRows` on a rank-3 and a rank-2 shape. -/
theorem addBroadcastRows_32 (n l d pl pd : ℕ) :
    addBroadcastRows [n, l, d] [pl, pd]
      = if (pl = l ∨ pl = 1) ∧ (pd = d ∨ pd = 1) then .ok [n, l, d]
        else .error "RuntimeError: broadcast shape mismatch" := rfl

/-- Computation rule for `linearShape` on rank-3 shapes. -/
theorem linearShape_3d (i o a b c : ℕ) :
    linearShape i o [a, b, c]
      = if c = i then .ok [a, b, o]
        else .error "RuntimeError: mat1 and mat2 shapes cannot be multiplied" := rfl

/-- Shape evaluation of the patch-transformer forward with all token features
requested, no masking, on a valid `[N, 3, res, res]` image batch whose
resolution is a positive multiple of the patch size: the output is the full
token sequence `[N, (res/patch)² + 1, width]`. -/
theorem vitForwardShape_valid (cfg : VTCfg) (n : ℕ)
    (hp : 0 < cfg.patch_size) (hd : cfg.patch_size ∣ cfg.input_resolution)
    (hge : cfg.patch_size ≤ cfg.input_resolution) :
    vitForwardShape cfg [n, 3, cfg.input_resolution, cfg.input_resolution] 0 true
      = .ok [n, (cfg.input_resolution / cfg.patch_size) ^ 2 + 1, cfg.width] := by
  obtain ⟨m, hm⟩ := hd
  have hm1 : 1 ≤ m := by
    rcases Nat.eq_zero_or_pos m with h0 | h1
    · subst h0
      rw [Nat.mul_zero] at hm
      omega
    · exact h1
  have hconv : (cfg.input_resolution + 2 * 0 - cfg.patch_size) / cfg.patch_size + 1 = m := by
    rw [hm]
    rw [show cfg.patch_size * m + 2 * 0 - cfg.patch_size = cfg.patch_size * (m - 1) by
      rw [Nat.mul_sub_one]
      omega]
    rw [Nat.mul_div_cancel_left _ hp]
    omega
  have hg : cfg.input_resolution / cfg.patch_size = m := by
    rw [hm, Nat.mul_div_cancel_left _ hp]
  unfold vitForwardShape
  rw [show conv2dShape 3 cfg.width cfg.patch_size cfg.patch_size 0
        [n, 3, cfg.input_resolution, cfg.input_resolution]
      = .ok [n, cfg.width, m, m] by
    rw [conv2dShape_4d, if_pos ⟨rfl, by omega, by omega⟩, hconv]]
  rw [tmBind_ok]
  rw [show reshapeFlatten3 [n, cfg.width, m, m] = .ok [n, cfg.width, m * m] from rfl]
  rw [tmBind_ok]
  rw [show permute021 [n, cfg.width, m * m] = .ok [n, m * m, cfg.width] from rfl]
  rw [tmBind_ok]
  rw [show catClassToken [n, m * m, cfg.width] = .ok [n, 1 + m * m, cfg.width] by
    rw [catClassToken_3d, torchCat1_3d, if_pos ⟨rfl, rfl⟩]]
  rw [tmBind_ok]
  rw [show addBroadcastRows [n, 1 + m * m, cfg.width]
        [(cfg.input_resolution / cfg.patch_size) ^ 2 + 1, cfg.width]
      = .ok [n, 1 + m * m, cfg.width] by
    rw [addBroadcastRows_32, if_pos ⟨Or.inl (by rw [hg]; ring), Or.inl rfl⟩]]
  rw [tmBind_ok]
  rw [show maybeMask 0 [n, 1 + m * m, cfg.width] = .ok [n, 1 + m * m, cfg.width] by
    unfold maybeMask
    rw [if_neg (by simp)]
    rfl]
  rw [tmBind_ok]
  rw [show layerNormShape cfg.width [n, 1 + m * m, cfg.width]
      = .ok [n, 1 + m * m, cfg.width] by simp [layerNormShape]]
  rw [tmBind_ok]
  rw [show permute102 [n, 1 + m * m, cfg.width] = .ok [1 + m * m, n, cfg.width] from rfl]
  rw [tmBind_ok]
  rw [transformerShape_fixed]
  rw [tmBind_ok]
  rw [if_pos rfl]
  rw [show layerNormShape cfg.width [1 + m * m, n, cfg.width]
      = .ok [1 + m * m, n, cfg.width] by simp [layerNormShape]]
  rw [tmBind_ok]
  rw [show permute102 [1 + m * m, n, cfg.width] = .ok [n, 1 + m * m, cfg.width] from rfl]
  rw [hg]
  rw [show 1 + m * m = m ^ 2 + 1 by ring]

/-! ### The CLIP model: `encode_image`, `forward`, `get_similarity` -/

/-- Visual backbone choice of `CLIP.__init__` (model.py 392-411): the
convolutional backbone enters as its abstract forward shape function; the patch
transformer is embedded concretely. -/
inductive VisualBackbone
  | resnet (forward : Shape → TM Shape)
  | vit (cfg : VTCfg)

/-- Shape-level view of the `CLIP` module: the embedding dimension and the
visual backbone.  The feature-mapping layers are the `nn.Linear` modules
registered by `CLIP.__init__` (model.py 444-446) and are determined by
`embed_dim`. -/
structure CLIPShape where
  embed_dim : ℕ
  visual : VisualBackbone

/-- Attribute table of the feature-mapping layers set in `CLIP.__init__`
(model.py 444-446): `global_feature_mapping : Linear(2·e, e, bias=False)`,
`left_feature_mapping`, `right_feature_mapping : Linear(e, e, bias=False)`.
Any other attribute name is unresolvable, as in Python attribute lookup. -/
def CLIPShape.getattrLinear (m : CLIPShape) : String → Option (ℕ × ℕ)
  | "global_feature_mapping" => some (2 * m.embed_dim, m.embed_dim)
  | "left_feature_mapping" => some (m.embed_dim, m.embed_dim)
  | "right_feature_mapping" => some (m.embed_dim, m.embed_dim)
  | _ => none

/-- Application of `self.<name>(x)` for the feature-mapping layers: a missing
attribute raises `AttributeError` exactly as Python `nn.Module` lookup does. -/
def CLIPShape.applyFeatureMapping (m : CLIPShape) (name : String) (s : Shape) : TM Shape :=
  match m.getattrLinear name with
  | none => .error ("AttributeError: CLIP object has no attribute " ++ name)
  | some io => linearShape io.1 io.2 s

/-- Return value of `CLIP.encode_image`: a bare feature tensor when one side is
given, a 3-tuple when both are. -/
inductive EncodeImageResult
  | single (s : Shape)
  | triple (global left right : Shape)
deriving DecidableEq, Repr

/-- Shallow embedding of `CLIP.encode_image` (model.py 494-524).  With one side
absent the backbone output is returned directly (the patch transformer is
always called with `return_all_features=True`, lines 500 and 507, ignoring the
method's own `return_all_features` parameter).  With both sides present the two
backbone outputs are concatenated on dim 1, the fused output goes through
`global_feature_mapping`, and the per-side outputs go through
`single_feature_mapping` (convolutional branch, lines 516-517, an attribute
`CLIP.__init__` never defines) resp. `left_feature_mapping` and
`right_feature_mapping` (transformer branch, lines 523-524). -/
def encode_image (m : CLIPShape) (img_l img_r : Option Shape) (mask_ratio : ℚ)
    (return_all_features : Bool) : TM EncodeImageResult :=
  match img_r with
  | none =>
    match img_l with
    | none => .error "AttributeError: NoneType object has no attribute type"
    | some l =>
      match m.visual with
      | .resnet f => (f l).map .single
      | .vit cfg => (vitForwardShape cfg l mask_ratio true).map .single
  | some r =>
    match img_l with
    | none =>
      match m.visual with
      | .resnet f => (f r).map .single
      | .vit cfg => (vitForwardShape cfg r mask_ratio true).map .single
    | some l =>
      match m.visual with
      | .resnet f => do
        let left_feature ← f l
        let right_feature ← f r
        let vision_feature ← torchCat 1 left_feature right_feature
        let g ← m.applyFeatureMapping "global_feature_mapping" vision_feature
        let sl ← m.applyFeatureMapping "single_feature_mapping" left_feature
        let sr ← m.applyFeatureMapping "single_feature_mapping" right_feature
        .ok (.triple g sl sr)
      | .vit cfg => do
        let left_feature ← vitForwardShape cfg l mask_ratio true
        let right_feature ← vitForwardShape cfg r mask_ratio true
        let vision_feature ← torchCat 1 left_feature right_feature
        let g ← m.applyFeatureMapping "global_feature_mapping" vision_feature
        let lo ← m.applyFeatureMapping "left_feature_mapping" left_feature
        let ro ← m.applyFeatureMapping "right_feature_mapping" right_feature
        .ok (.triple g lo ro)

/-- Missing attribute: `single_feature_mapping` is not among the layers
registered by `CLIP.__init__`. -/
theorem getattrLinear_single (m : CLIPShape) :
    m.applyFeatureMapping "single_feature_mapping" =
      fun _ => .error "AttributeError: CLIP object has no attribute single_feature_mapping" :=
  rfl

/-- Computation of the fused feature map: `Linear(2·embed_dim, embed_dim)`. -/
theorem applyFM_global (m : CLIPShape) (s : Shape) :
    m.applyFeatureMapping "global_feature_mapping" s
      = linearShape (2 * m.embed_dim) m.embed_dim s := rfl

/-- Computation of the left feature map: `Linear(embed_dim, embed_dim)`. -/
theorem applyFM_left (m : CLIPShape) (s : Shape) :
    m.applyFeatureMapping "left_feature_mapping" s
      = linearShape m.embed_dim m.embed_dim s := rfl

/-- Computation of the right feature map: `Linear(embed_dim, embed_dim)`. -/
theorem applyFM_right (m : CLIPShape) (s : Shape) :
    m.applyFeatureMapping "right_feature_mapping" s
      = linearShape m.embed_dim m.embed_dim s := rfl

/-- Core of claims C1 and C2: with both image sides present, `encode_image`
never succeeds (for any positive embedding dimension).  On the convolutional
branch the per-side maps use the undefined attribute `single_feature_mapping`;
on the transformer branch the per-side backbone outputs are full token
sequences with last dimension `width`, which cannot simultaneously satisfy the
`2·embed_dim`-input fused map and the `embed_dim`-input per-side maps. -/
theorem encode_image_both_fails_aux (m : CLIPShape) (l r : Shape) (mr : ℚ) (raf : Bool)
    (he : 1 ≤ m.embed_dim) :
    isOkE (encode_image m (some l) (some r) mr raf) = false := by
  obtain ⟨e, vis⟩ := m
  cases vis with
  | resnet f =>
    have hred : encode_image ⟨e, .resnet f⟩ (some l) (some r) mr raf
        = (f l >>= fun left_feature => f r >>= fun right_feature =>
            torchCat 1 left_feature right_feature >>= fun vision_feature =>
            CLIPShape.applyFeatureMapping ⟨e, .resnet f⟩ "global_feature_mapping"
              vision_feature >>= fun g =>
            CLIPShape.applyFeatureMapping ⟨e, .resnet f⟩ "single_feature_mapping"
              left_feature >>= fun sl =>
            CLIPShape.applyFeatureMapping ⟨e, .resnet f⟩ "single_feature_mapping"
              right_feature >>= fun sr =>
            Except.ok (.triple g sl sr)) := rfl
    rw [hred]
    cases h1 : f l with
    | error msg => rw [tmBind_error]; rfl
    | ok lf =>
      rw [tmBind_ok]
      cases h2 : f r with
      | error msg => rw [tmBind_error]; rfl
      | ok rf =>
        rw [tmBind_ok]
        cases h3 : torchCat 1 lf rf with
        | error msg => rw [tmBind_error]; rfl
        | ok vf =>
          rw [tmBind_ok]
          cases h4 : CLIPShape.applyFeatureMapping ⟨e, .resnet f⟩ "global_feature_mapping" vf with
          | error msg => rw [tmBind_error]; rfl
          | ok g =>
            rw [tmBind_ok, getattrLinear_single]
            rw [tmBind_error]
            rfl
  | vit cfg =>
    have hred : encode_image ⟨e, .vit cfg⟩ (some l) (some r) mr raf
        = (vitForwardShape cfg l mr true >>= fun left_feature =>
            vitForwardShape cfg r mr true >>= fun right_feature =>
            torchCat 1 left_feature right_feature >>= fun vision_feature =>
            CLIPShape.applyFeatureMapping ⟨e, .vit cfg⟩ "global_feature_mapping"
              vision_feature >>= fun g =>
            CLIPShape.applyFeatureMapping ⟨e, .vit cfg⟩ "left_feature_mapping"
              left_feature >>= fun lo =>
            CLIPShape.applyFeatureMapping ⟨e, .vit cfg⟩ "right_feature_mapping"
              right_feature >>= fun ro =>
            Except.ok (.triple g lo ro)) := rfl
    rw [hred]
    cases h1 : vitForwardShape cfg l mr true with
    | error msg => rw [tmBind_error]; rfl
    | ok lf =>
      rw [tmBind_ok]
      cases h2 : vitForwardShape cfg r mr true with
      | error msg => rw [tmBind_error]; rfl
      | ok rf =>
        rw [tmBind_ok]
        obtain ⟨a, b, hlf⟩ := vitForwardShape_all_features_shape h1
        obtain ⟨a', b', hrf⟩ := vitForwardShape_all_features_shape h2
        subst hlf
        subst hrf
        rw [torchCat1_3d]
        by_cases hcat : a = a' ∧ cfg.width = cfg.width
        · rw [if_pos hcat, tmBind_ok, applyFM_global]
          rw [show (⟨e, .vit cfg⟩ : CLIPShape).embed_dim = e from rfl]
          rw [linearShape_3d]
          by_cases hw : cfg.width = 2 * e
          · rw [if_pos hw, tmBind_ok, applyFM_left]
            rw [show (⟨e, .vit cfg⟩ : CLIPShape).embed_dim = e from rfl]
            rw [linearShape_3d]
            rw [if_neg (by have he' : 1 ≤ e := he; omega)]
            rw [tmBind_error]
            rfl
          · rw [if_neg hw, tmBind_error]
            rfl
        · rw [if_neg hcat, tmBind_error]
          rfl

/-- Claim C1 (code bug): for every model with positive embedding dimension and
every pair of image batches, `encode_image` with both `img_l` and `img_r`
present fails instead of returning the three `embed_dim`-dimensional outputs
the specification describes — on the convolutional backbone with an
`AttributeError` (`single_feature_mapping` is never defined), on the
patch-transformer backbone with a shape error (the raw outputs are full token
sequences). -/
theorem encode_image_both_sides_never_returns (m : CLIPShape) (l r : Shape) (mr : ℚ)
    (raf : Bool) (he : 1 ≤ m.embed_dim) :
    isOkE (encode_image m (some l) (some r) mr raf) = false :=
  encode_image_both_fails_aux m l r mr raf he

/-- Witness for `encode_image_both_sides_never_returns`: a concrete
convolutional model (any backbone output) with `embed_dim = 4`. -/
theorem encode_image_both_sides_never_returns_witness :
    1 ≤ (4 : ℕ) ∧
      isOkE (encode_image ⟨4, .resnet (fun _ => .ok [2, 4])⟩ (some [2, 3, 224, 224])
        (some [2, 3, 224, 224]) 0 false) = false :=
  ⟨by decide,
    encode_image_both_sides_never_returns ⟨4, .resnet (fun _ => .ok [2, 4])⟩
      [2, 3, 224, 224] [2, 3, 224, 224] 0 false (by decide)⟩

/-- Claim C10: with the patch-transformer backbone and exactly one image side
supplied, `encode_image` ignores its `return_all_features` argument — for every
value of the flag (and for either side) the result is the full post-LayerNorm
token sequence of shape `[batch, (res/patch)² + 1, width]` produced by the
backbone with all token features requested, not a projected `[batch, embed_dim]`
embedding. -/
theorem encode_image_single_side_all_features (e : ℕ) (cfg : VTCfg) (n : ℕ)
    (raf : Bool)
    (hp : 0 < cfg.patch_size) (hd : cfg.patch_size ∣ cfg.input_resolution)
    (hge : cfg.patch_size ≤ cfg.input_resolution) :
    encode_image ⟨e, .vit cfg⟩
        (some [n, 3, cfg.input_resolution, cfg.input_resolution]) none 0 raf
      = .ok (.single [n, (cfg.input_resolution / cfg.patch_size) ^ 2 + 1, cfg.width])
    ∧ encode_image ⟨e, .vit cfg⟩
        none (some [n, 3, cfg.input_resolution, cfg.input_resolution]) 0 raf
      = .ok (.single [n, (cfg.input_resolution / cfg.patch_size) ^ 2 + 1, cfg.width]) := by
  constructor
  · show Except.map EncodeImageResult.single
        (vitForwardShape cfg [n, 3, cfg.input_resolution, cfg.input_resolution] 0 true) = _
    rw [vitForwardShape_valid cfg n hp hd hge]
    rfl
  · show Except.map EncodeImageResult.single
        (vitForwardShape cfg [n, 3, cfg.input_resolution, cfg.input_resolution] 0 true) = _
    rw [vitForwardShape_valid cfg n hp hd hge]
    rfl

/-- Witness for `encode_image_single_side_all_features`: resolution 8, patch 4,
width 5, one image of batch 2; both flag values give the 5-token sequence
`[2, 5, 5]`. -/
theorem encode_image_single_side_all_features_witness :
    encode_image ⟨7, .vit ⟨8, 4, 5, 2, 1, 7⟩⟩ (some [2, 3, 8, 8]) none 0 false
      = .ok (.single [2, (8 / 4) ^ 2 + 1, 5])
    ∧ encode_image ⟨7, .vit ⟨8, 4, 5, 2, 1, 7⟩⟩ none (some [2, 3, 8, 8]) 0 false
      = .ok (.single [2, (8 / 4) ^ 2 + 1, 5]) :=
  encode_image_single_side_all_features 7 ⟨8, 4, 5, 2, 1, 7⟩ 2 false
    (by decide) (by decide) (by decide)

/-- Python unpacking `a, b, c = r` of an `encode_image` result: a 3-tuple
destructures; a bare tensor iterates its first dimension and needs exactly
three rows. -/
def unpackTriple (r : EncodeImageResult) : TM (Shape × Shape × Shape) :=
  match r with
  | .triple a b c => .ok (a, b, c)
  | .single s =>
    match s with
    | n :: rest =>
      if n = 3 then .ok (rest, rest, rest)
      else .error "ValueError: values to unpack do not match (expected 3)"
    | [] => .error "TypeError: iteration over a 0-d tensor"

/-- Python unpacking `a, _ = r` of an `encode_image` result (model.py 562): a
3-tuple has too many values; a bare tensor iterates its first dimension and
needs exactly two rows. -/
def unpackPair (r : EncodeImageResult) : TM Shape :=
  match r with
  | .triple _ _ _ => .error "ValueError: too many values to unpack (expected 2)"
  | .single s =>
    match s with
    | n :: rest =>
      if n = 2 then .ok rest
      else .error "ValueError: values to unpack do not match (expected 2)"
    | [] => .error "TypeError: iteration over a 0-d tensor"

/-- Shape semantics of one text projection head
`nn.Sequential(Linear(h, h), ReLU, Linear(h, e))` (the ReLU is shape
preserving). -/
def textProjectionShape (hidden e : ℕ) (s : Shape) : TM Shape :=
  linearShape hidden hidden s >>= fun a => linearShape hidden e a

/-- Shape semantics of `CLIP.encode_text` (model.py 526-534): run the BERT
collaborator, slice the position-0 hidden state, and project it through the
three heads. -/
def encode_textShape (bert : Shape → TM Shape) (text_hidden embed_dim : ℕ)
    (text : Shape) : TM (Shape × Shape × Shape) :=
  bert text >>= fun x =>
  clsSlice x >>= fun cls =>
  textProjectionShape text_hidden embed_dim cls >>= fun t =>
  textProjectionShape text_hidden embed_dim cls >>= fun tl =>
  textProjectionShape text_hidden embed_dim cls >>= fun tr =>
  .ok (t, tl, tr)

/-- Shape semantics of the row-wise L2 normalization `x / x.norm(dim=-1, keepdim=True)`:
shape preserving on any tensor with at least one dimension. -/
def l2NormalizeShape (s : Shape) : TM Shape :=
  if s.length = 0 then .error "IndexError: norm dimension out of range" else .ok s

/-- Return value of `CLIP.forward`: the text triple, an image result, or the
9-tuple (the three exponentiated logit scales are scalars and omitted from the
shape view). -/
inductive ForwardResult
  | textTriple (t tl tr : Shape)
  | image (r : EncodeImageResult)
  | nineTuple (image_global text_global text_left text_right image_left image_right : Shape)
deriving DecidableEq, Repr

/-- Shallow embedding of `CLIP.forward` (model.py 536-559): dispatch on which
inputs are present; with all three present, encode both modalities, unpack the
image triple, L2-normalize all six embeddings and return the fixed-order
9-tuple. -/
def CLIP_forward (m : CLIPShape) (bert : Shape → TM Shape) (text_hidden : ℕ)
    (img_l img_r text : Option Shape) (mask_ratio : ℚ) : TM ForwardResult :=
  match img_l, img_r, text with
  | none, none, none => .error "AssertionError: text and images cannot all be None!"
  | none, none, some t =>
    (encode_textShape bert text_hidden m.embed_dim t).map
      (fun p => .textTriple p.1 p.2.1 p.2.2)
  | some l, none, none => (encode_image m (some l) none 0 false).map .image
  | none, some r, none => (encode_image m none (some r) 0 false).map .image
  | some l, some r, none => (encode_image m (some l) (some r) 0 false).map .image
  | some _, none, some _ => .error "AssertionError: both images is required!"
  | none, some _, some _ => .error "AssertionError: both images is required!"
  | some l, some r, some t =>
    encode_image m (some l) (some r) mask_ratio false >>= fun res =>
    unpackTriple res >>= fun imgs =>
    encode_textShape bert text_hidden m.embed_dim t >>= fun txts =>
    l2NormalizeShape imgs.1 >>= fun image_features =>
    l2NormalizeShape imgs.2.1 >>= fun left_features =>
    l2NormalizeShape imgs.2.2 >>= fun right_features =>
    l2NormalizeShape txts.1 >>= fun text_features =>
    l2NormalizeShape txts.2.1 >>= fun text_features_left =>
    l2NormalizeShape txts.2.2 >>= fun text_features_right =>
    .ok (.nineTuple image_features text_features text_features_left text_features_right
      left_features right_features)

/-- Shallow embedding of `CLIP.get_similarity` (model.py 561-575): the result of
`encode_image(img_l, img_r)` is destructured into two variables (line 562), and
`encode_text`'s result — a Python 3-tuple — is given to `.norm(dim=1, keepdim=True)`
(line 567), which no tuple has; the remaining similarity computation
(lines 570-575) is unreachable. -/
def get_similarity (m : CLIPShape) (bert : Shape → TM Shape) (text_hidden : ℕ)
    (img_l img_r : Option Shape) (text : Shape) : TM (Shape × Shape) :=
  encode_image m img_l img_r 0 false >>= fun res =>
  unpackPair res >>= fun _image_features =>
  encode_textShape bert text_hidden m.embed_dim text >>= fun _text_features =>
  Except.error "AttributeError: tuple object has no attribute norm"

/-- Claim C2 (code bug): with `img_l`, `img_r` and `text` all present, `forward`
never returns the 9-tuple of normalized embeddings and exponentiated scales the
specification describes, because the `encode_image` call it makes first always
fails (see `encode_image_both_sides_never_returns`), for every model with
positive embedding dimension. -/
theorem forward_all_present_never_returns (m : CLIPShape) (bert : Shape → TM Shape)
    (text_hidden : ℕ) (l r t : Shape) (mr : ℚ) (he : 1 ≤ m.embed_dim) :
    isOkE (CLIP_forward m bert text_hidden (some l) (some r) (some t) mr) = false := by
  have hred : CLIP_forward m bert text_hidden (some l) (some r) (some t) mr
      = (encode_image m (some l) (some r) mr false >>= fun res =>
          unpackTriple res >>= fun imgs =>
          encode_textShape bert text_hidden m.embed_dim t >>= fun txts =>
          l2NormalizeShape imgs.1 >>= fun image_features =>
          l2NormalizeShape imgs.2.1 >>= fun left_features =>
          l2NormalizeShape imgs.2.2 >>= fun right_features =>
          l2NormalizeShape txts.1 >>= fun text_features =>
          l2NormalizeShape txts.2.1 >>= fun text_features_left =>
          l2NormalizeShape txts.2.2 >>= fun text_features_right =>
          .ok (.nineTuple image_features text_features text_features_left
            text_features_right left_features right_features)) := rfl
  have hfail := encode_image_both_fails_aux m l r mr false he
  rw [hred]
  cases h1 : encode_image m (some l) (some r) mr false with
  | ok v =>
    rw [h1] at hfail
    exact absurd hfail (by simp [isOkE])
  | error msg =>
    rw [tmBind_error]
    rfl

/-- Witness for `forward_all_present_never_returns` at a concrete convolutional
model with embedding dimension 4. -/
theorem forward_all_present_never_returns_witness :
    1 ≤ (4 : ℕ) ∧
      isOkE (CLIP_forward ⟨4, .resnet (fun _ => .ok [2, 4])⟩ (fun _ => .ok [2, 52, 768]) 768
        (some [2, 3, 224, 224]) (some [2, 3, 224, 224]) (some [2, 52]) 0) = false :=
  ⟨by decide,
    forward_all_present_never_returns ⟨4, .resnet (fun _ => .ok [2, 4])⟩
      (fun _ => .ok [2, 52, 768]) 768 [2, 3, 224, 224] [2, 3, 224, 224] [2, 52] 0 (by decide)⟩

/-- Claim C3 (code bug): `get_similarity` never returns at all — for every
model, text backbone and inputs it raises before reaching the similarity
computation, so in particular it never produces the 2×2 transpose pair of
logit matrices the specification describes. -/
theorem get_similarity_never_returns (m : CLIPShape) (bert : Shape → TM Shape)
    (text_hidden : ℕ) (img_l img_r : Option Shape) (text : Shape) :
    isOkE (get_similarity m bert text_hidden img_l img_r text) = false := by
  unfold get_similarity
  cases h1 : encode_image m img_l img_r 0 false with
  | error msg => rw [tmBind_error]; rfl
  | ok res =>
    rw [tmBind_ok]
    cases h2 : unpackPair res with
    | error msg => rw [tmBind_error]; rfl
    | ok imf =>
      rw [tmBind_ok]
      cases h3 : encode_textShape bert text_hidden m.embed_dim text with
      | error msg => rw [tmBind_error]; rfl
      | ok txts =>
        rw [tmBind_ok]
        rfl

/-! ## Claim C4: `convert_state_dict` (model.py 658-713)

The function rewrites attention parameter names between the separate and the
fused layout.  The keys it touches are exactly the fixed key families
`{prefix}visual.transformer.resblocks.{j}.attn.{in_proj_weight | in_proj_bias |
Wqkv.weight | Wqkv.bias}` and `{prefix}bert.encoder.layer.{i}.attention.
{self.{query|key|value}.{weight|bias} | self.Wqkv.{weight|bias} |
self.out_proj.{weight|bias} | output.dense.{weight|bias}}`, with
`prefix ∈ {"", "module."}`; the embedding represents a key as this structured
datum (index, field, module-prefix flag), and any other key as a raw string —
on this key space the source's substring tests and `str.replace` rewrites
correspond exactly to the structured field tests and substitutions used below.
Tensors enter as lists of rows (their dim-0 slices): `torch.cat` on dim 0 is
list append, `torch.chunk(·, 3)` splits into `ceil(n/3)`-row chunks.  The
state dict is an insertion-ordered association list with Python dict
operations (`pop` removes, assignment to a fresh key appends). -/

/-- Vision attention fields: `attn.in_proj_weight`, `attn.in_proj_bias`,
`attn.Wqkv.weight`, `attn.Wqkv.bias`. -/
inductive VisF
  | ipW
  | ipB
  | qkvW
  | qkvB
deriving DecidableEq, Repr

/-- Text attention fields: `attention.self.{query,key,value}.{weight,bias}`,
`attention.self.Wqkv.{weight,bias}`, `attention.self.out_proj.{weight,bias}`,
`attention.output.dense.{weight,bias}`. -/
inductive BertF
  | qW
  | qB
  | kW
  | kB
  | vW
  | vB
  | wqkvW
  | wqkvB
  | oprojW
  | oprojB
  | denseW
  | denseB
deriving DecidableEq, Repr

/-- Core of a state-dict key: a vision resblock attention key, a text layer
attention key, or any other (untouched) key as its raw string. -/
inductive CoreKey
  | vis (j : ℕ) (f : VisF)
  | bert (i : ℕ) (f : BertF)
  | raw (s : String)
deriving DecidableEq, Repr

/-- State-dict key: whether the name carries the leading `module.` prefix, plus
its core. -/
structure SKey where
  mod : Bool
  core : CoreKey
deriving DecidableEq, Repr

/-- Structured state dict: insertion-ordered association list over `SKey`. -/
abbrev CSD (α : Type) := List (SKey × List α)

/-- Key membership / read (`k in d`, `d[k]`). -/
def CSD.find? {α : Type} : CSD α → SKey → Option (List α)
  | [], _ => none
  | kv :: d, k => if kv.1 = k then some kv.2 else CSD.find? d k

/-- Python `d.pop(k)`: remove the binding, returning its value; `KeyError` when
the key is absent. -/
def CSD.pop {α : Type} : CSD α → SKey → Except String (List α × CSD α)
  | [], _ => .error "KeyError"
  | kv :: d, k =>
    if kv.1 = k then .ok (kv.2, d)
    else (CSD.pop d k).map (fun p => (p.1, kv :: p.2))

/-- Python `d[k] = v`: update the existing binding in place, otherwise append. -/
def CSD.set {α : Type} (d : CSD α) (k : SKey) (v : List α) : CSD α :=
  match d with
  | [] => [(k, v)]
  | kv :: d' => if kv.1 = k then (k, v) :: d' else kv :: CSD.set d' k v

/-- Python `d[k2] = d.pop(k1)` (the rename idiom of the vision branch,
model.py 668-676). -/
def renameKey {α : Type} (d : CSD α) (k k' : SKey) : Except String (CSD α) :=
  (d.pop k).map (fun p => p.2.set k' p.1)

/-- Row-level semantics of `torch.chunk(t, chunks=3)` on dim 0 followed by
unpacking into three names: chunks of `ceil(n/3)` rows; unpacking fails unless
exactly three (nonempty) chunks result. -/
def tchunk3 {α : Type} (l : List α) : Except String (List α × List α × List α) :=
  if l.length = 0 then .error "RuntimeError: chunk expects a tensor with a positive size"
  else if 2 * ((l.length + 2) / 3) < l.length then
    .ok (l.take ((l.length + 2) / 3), (l.drop ((l.length + 2) / 3)).take ((l.length + 2) / 3),
      l.drop (2 * ((l.length + 2) / 3)))
  else .error "ValueError: not enough values to unpack (expected 3)"

/-- Vision rename pass, separate to fused (model.py 666-670): iterate over a
snapshot of the keys; a key holding `attn.in_proj_weight` (resp. `_bias`) is
popped and re-inserted under `attn.Wqkv.weight` (resp. `.bias`). -/
def visS2F {α : Type} : CSD α → List SKey → Except String (CSD α)
  | d, [] => .ok d
  | d, k :: ks =>
    (match k.core with
     | .vis j VisF.ipW => renameKey d k ⟨k.mod, .vis j .qkvW⟩
     | .vis j VisF.ipB => renameKey d k ⟨k.mod, .vis j .qkvB⟩
     | _ => .ok d) >>= fun d' => visS2F d' ks

/-- Vision rename pass, fused to separate (model.py 671-676). -/
def visF2S {α : Type} : CSD α → List SKey → Except String (CSD α)
  | d, [] => .ok d
  | d, k :: ks =>
    (match k.core with
     | .vis j VisF.qkvW => renameKey d k ⟨k.mod, .vis j .ipW⟩
     | .vis j VisF.qkvB => renameKey d k ⟨k.mod, .vis j .ipB⟩
     | _ => .ok d) >>= fun d' => visF2S d' ks

/-- Body of one text separate-to-fused loop iteration (model.py 681-694):
`Wqkv.weight = cat(pop q.weight, pop k.weight, pop v.weight)`, the same for the
biases, then `out_proj ← output.dense`. -/
def textS2Fbody {α : Type} (pfx : Bool) (i : ℕ) (d : CSD α) : Except String (CSD α) :=
  d.pop ⟨pfx, .bert i .qW⟩ >>= fun pqw =>
  pqw.2.pop ⟨pfx, .bert i .kW⟩ >>= fun pkw =>
  pkw.2.pop ⟨pfx, .bert i .vW⟩ >>= fun pvw =>
  (pvw.2.set ⟨pfx, .bert i .wqkvW⟩ (pqw.1 ++ pkw.1 ++ pvw.1)).pop ⟨pfx, .bert i .qB⟩
    >>= fun pqb =>
  pqb.2.pop ⟨pfx, .bert i .kB⟩ >>= fun pkb =>
  pkb.2.pop ⟨pfx, .bert i .vB⟩ >>= fun pvb =>
  (pvb.2.set ⟨pfx, .bert i .wqkvB⟩ (pqb.1 ++ pkb.1 ++ pvb.1)).pop ⟨pfx, .bert i .denseW⟩
    >>= fun pdw =>
  (pdw.2.set ⟨pfx, .bert i .oprojW⟩ pdw.1).pop ⟨pfx, .bert i .denseB⟩ >>= fun pdb =>
  .ok (pdb.2.set ⟨pfx, .bert i .oprojB⟩ pdb.1)

/-- Text separate-to-fused `while` loop (model.py 679-695): run the body while
layer `i` still has a separate `query.weight`, incrementing `i`.  The fuel is
an upper bound on the iteration count (each iteration consumes one
`query.weight` key, so the dict size bounds it); exhaustion cannot occur on
dicts of the key layout. -/
def textS2F {α : Type} (pfx : Bool) : ℕ → ℕ → CSD α → Except String (CSD α)
  | 0, _, _ => .error "internal: loop fuel exhausted"
  | fuel + 1, i, d =>
    if (d.find? ⟨pfx, .bert i .qW⟩).isSome then
      textS2Fbody pfx i d >>= fun d' => textS2F pfx fuel (i + 1) d'
    else .ok d

/-- Body of one text fused-to-separate loop iteration (model.py 698-710):
`query, key, value = chunk(pop Wqkv, 3)` for weight and bias, then
`output.dense ← out_proj` — where the final `out_proj.bias` pop (line 710)
names the key with a hardcoded `module.` prefix. -/
def textF2Sbody {α : Type} (pfx : Bool) (i : ℕ) (d : CSD α) : Except String (CSD α) :=
  d.pop ⟨pfx, .bert i .wqkvW⟩ >>= fun pw =>
  tchunk3 pw.1 >>= fun cw =>
  (((pw.2.set ⟨pfx, .bert i .qW⟩ cw.1).set ⟨pfx, .bert i .kW⟩ cw.2.1).set
      ⟨pfx, .bert i .vW⟩ cw.2.2).pop ⟨pfx, .bert i .wqkvB⟩ >>= fun pb =>
  tchunk3 pb.1 >>= fun cb =>
  (((pb.2.set ⟨pfx, .bert i .qB⟩ cb.1).set ⟨pfx, .bert i .kB⟩ cb.2.1).set
      ⟨pfx, .bert i .vB⟩ cb.2.2).pop ⟨pfx, .bert i .oprojW⟩ >>= fun pow =>
  (pow.2.set ⟨pfx, .bert i .denseW⟩ pow.1).pop ⟨true, .bert i .oprojB⟩ >>= fun pob =>
  .ok (pob.2.set ⟨pfx, .bert i .denseB⟩ pob.1)

/-- Text fused-to-separate `while` loop (model.py 696-711). -/
def textF2S {α : Type} (pfx : Bool) : ℕ → ℕ → CSD α → Except String (CSD α)
  | 0, _, _ => .error "internal: loop fuel exhausted"
  | fuel + 1, i, d =>
    if (d.find? ⟨pfx, .bert i .wqkvW⟩).isSome then
      textF2Sbody pfx i d >>= fun d' => textF2S pfx fuel (i + 1) d'
    else .ok d

/-- Body of `convert_state_dict` once the prefix flag has been read off the
first key: the vision rename runs in whichever direction its probe key
(resblock 0) detects, then the text loop in whichever direction its probe key
(layer 0) detects. -/
def convertStateDictPfx {α : Type} (pfx : Bool) (state_dict : CSD α) :
    Except String (CSD α) :=
  (if (state_dict.find? ⟨pfx, .vis 0 .ipW⟩).isSome then
    visS2F state_dict (state_dict.map Prod.fst)
  else if (state_dict.find? ⟨pfx, .vis 0 .qkvW⟩).isSome then
    visF2S state_dict (state_dict.map Prod.fst)
  else .ok state_dict) >>= fun d1 =>
  if (d1.find? ⟨pfx, .bert 0 .qW⟩).isSome then
    textS2F pfx (d1.length + 1) 0 d1
  else if (d1.find? ⟨pfx, .bert 0 .wqkvW⟩).isSome then
    textF2S pfx (d1.length + 1) 0 d1
  else .ok d1

/-- Shallow embedding of `convert_state_dict` (model.py 658-713): empty dicts
pass through; otherwise the prefix flag is read off the first key and both
rewrite phases run. -/
def convert_state_dict {α : Type} (state_dict : CSD α) : Except String (CSD α) :=
  if state_dict.isEmpty then .ok state_dict
  else convertStateDictPfx (((state_dict.head?).map (fun kv => kv.1.mod)).getD false)
    state_dict

/-! ### The separate-layout key schema -/

/-- One text layer's separate attention parameters. -/
structure BertSepLayer (α : Type) where
  qw : List α
  qb : List α
  kw : List α
  kb : List α
  vw : List α
  vb : List α
  dw : List α
  db : List α

/-- The eight separate-layout entries of text layer `i` (checkpoint order:
query, key, value weights and biases interleaved, then the dense output). -/
def bertSepEntries {α : Type} (md : Bool) (i : ℕ) (l : BertSepLayer α) : CSD α :=
  [(⟨md, .bert i .qW⟩, l.qw), (⟨md, .bert i .qB⟩, l.qb),
   (⟨md, .bert i .kW⟩, l.kw), (⟨md, .bert i .kB⟩, l.kb),
   (⟨md, .bert i .vW⟩, l.vw), (⟨md, .bert i .vB⟩, l.vb),
   (⟨md, .bert i .denseW⟩, l.dw), (⟨md, .bert i .denseB⟩, l.db)]

/-- The four fused-layout entries of text layer `i` produced by the conversion:
query, key, value concatenated in that order. -/
def bertFusedEntries {α : Type} (md : Bool) (i : ℕ) (l : BertSepLayer α) : CSD α :=
  [(⟨md, .bert i .wqkvW⟩, l.qw ++ l.kw ++ l.vw),
   (⟨md, .bert i .wqkvB⟩, l.qb ++ l.kb ++ l.vb),
   (⟨md, .bert i .oprojW⟩, l.dw), (⟨md, .bert i .oprojB⟩, l.db)]

/-- The eight separate-layout entries of text layer `i` as re-created by the
fused-to-separate direction (weights first, then biases, then dense). -/
def bertResepEntries {α : Type} (md : Bool) (i : ℕ) (l : BertSepLayer α) : CSD α :=
  [(⟨md, .bert i .qW⟩, l.qw), (⟨md, .bert i .kW⟩, l.kw), (⟨md, .bert i .vW⟩, l.vw),
   (⟨md, .bert i .qB⟩, l.qb), (⟨md, .bert i .kB⟩, l.kb), (⟨md, .bert i .vB⟩, l.vb),
   (⟨md, .bert i .denseW⟩, l.dw), (⟨md, .bert i .denseB⟩, l.db)]

/-- Separate-layout text region starting at layer `i0`. -/
def mkBertSep {α : Type} (md : Bool) : ℕ → List (BertSepLayer α) → CSD α
  | _, [] => []
  | i, l :: ls => bertSepEntries md i l ++ mkBertSep md (i + 1) ls

/-- Fused-layout text region starting at layer `i0`. -/
def mkBertFused {α : Type} (md : Bool) : ℕ → List (BertSepLayer α) → CSD α
  | _, [] => []
  | i, l :: ls => bertFusedEntries md i l ++ mkBertFused md (i + 1) ls

/-- Re-separated text region starting at layer `i0`. -/
def mkBertResep {α : Type} (md : Bool) : ℕ → List (BertSepLayer α) → CSD α
  | _, [] => []
  | i, l :: ls => bertResepEntries md i l ++ mkBertResep md (i + 1) ls

/-- Separate-layout vision region: `in_proj_weight`, `in_proj_bias` per block. -/
def mkVisSep {α : Type} (md : Bool) : ℕ → List (List α × List α) → CSD α
  | _, [] => []
  | j, t :: ts => [(⟨md, .vis j .ipW⟩, t.1), (⟨md, .vis j .ipB⟩, t.2)]
      ++ mkVisSep md (j + 1) ts

/-- Fused-layout vision region: `Wqkv.weight`, `Wqkv.bias` per block (the
values are the unchanged `in_proj` tensors). -/
def mkVisFused {α : Type} (md : Bool) : ℕ → List (List α × List α) → CSD α
  | _, [] => []
  | j, t :: ts => [(⟨md, .vis j .qkvW⟩, t.1), (⟨md, .vis j .qkvB⟩, t.2)]
      ++ mkVisFused md (j + 1) ts

/-- Untouched (non-attention) keys as a region of the structured dict. -/
def mkExtras {α : Type} (md : Bool) (extra : List (String × List α)) : CSD α :=
  extra.map (fun p => (⟨md, .raw p.1⟩, p.2))

/-- A full separate-layout state dict: the vision region, the text region, and
arbitrary untouched keys, all under one prefix flag. -/
def mkSepDict {α : Type} (md : Bool) (vis : List (List α × List α))
    (bert : List (BertSepLayer α)) (extra : List (String × List α)) : CSD α :=
  mkVisSep md 0 vis ++ mkBertSep md 0 bert ++ mkExtras md extra

/-- Counterexample to claim C4: on a separate-layout dict whose keys do not
carry the `module.` prefix (one vision block, one text layer), the first
application of `convert_state_dict` succeeds, but the second fails with a
`KeyError` — the fused-to-separate direction pops
`module.bert.encoder.layer.0.attention.self.out_proj.bias` with a hardcoded
`module.` prefix (model.py line 710), a key the unprefixed dict does not hold.
So the conversion is not a bijection regardless of prefix. -/
theorem convert_state_dict_unprefixed_roundtrip_fails :
    (convert_state_dict (mkSepDict false [([(1 : ℤ)], [2])]
        [⟨[10], [11], [20], [21], [30], [31], [40], [41]⟩] [])
      >>= convert_state_dict) = Except.error "KeyError" := rfl

/-! ### Association-list lemmas for the structured state dict -/

theorem CSD.find?_nil {α : Type} (k : SKey) : CSD.find? ([] : CSD α) k = none := rfl

/-- Lookup at the head. -/
theorem CSD.find?_cons_eq {α : Type} {kv : SKey × List α} {d : CSD α} {k : SKey}
    (h : kv.1 = k) : CSD.find? (kv :: d) k = some kv.2 := by
  unfold CSD.find?
  rw [if_pos h]

/-- Lookup past the head. -/
theorem CSD.find?_cons_ne {α : Type} {kv : SKey × List α} {d : CSD α} {k : SKey}
    (h : kv.1 ≠ k) : CSD.find? (kv :: d) k = CSD.find? d k := by
  show (if kv.1 = k then some kv.2 else CSD.find? d k) = CSD.find? d k
  rw [if_neg h]

/-- Lookup distributes over append. -/
theorem CSD.find?_append {α : Type} (A B : CSD α) (k : SKey) :
    CSD.find? (A ++ B) k = (CSD.find? A k).or (CSD.find? B k) := by
  induction A with
  | nil => simp [CSD.find?]
  | cons kv A ih =>
    by_cases h : kv.1 = k
    · rw [List.cons_append, CSD.find?_cons_eq h, CSD.find?_cons_eq h]
      rfl
    · rw [List.cons_append, CSD.find?_cons_ne h, CSD.find?_cons_ne h, ih]

/-- Lookup misses when no binding carries the key. -/
theorem CSD.find?_eq_none {α : Type} {d : CSD α} {k : SKey}
    (h : ∀ kv ∈ d, kv.1 ≠ k) : CSD.find? d k = none := by
  induction d with
  | nil => rfl
  | cons kv d ih =>
    rw [CSD.find?_cons_ne (h kv (by simp))]
    exact ih (fun kv' hkv' => h kv' (by simp [hkv']))

/-- Pop at the head. -/
theorem CSD.pop_cons_eq {α : Type} {kv : SKey × List α} {d : CSD α} {k : SKey}
    (h : kv.1 = k) : CSD.pop (kv :: d) k = .ok (kv.2, d) := by
  unfold CSD.pop
  rw [if_pos h]

/-- Pop past the head. -/
theorem CSD.pop_cons_ne {α : Type} {kv : SKey × List α} {d : CSD α} {k : SKey}
    (h : kv.1 ≠ k) :
    CSD.pop (kv :: d) k = (CSD.pop d k).map (fun p => (p.1, kv :: p.2)) := by
  show (if kv.1 = k then Except.ok (kv.2, d)
      else (CSD.pop d k).map (fun p => (p.1, kv :: p.2)))
    = (CSD.pop d k).map (fun p => (p.1, kv :: p.2))
  rw [if_neg h]

/-- Pop passes over an absent-key region. -/
theorem CSD.pop_append_left {α : Type} {A : CSD α} (B : CSD α) {k : SKey}
    (h : CSD.find? A k = none) :
    CSD.pop (A ++ B) k = (CSD.pop B k).map (fun p => (p.1, A ++ p.2)) := by
  induction A with
  | nil =>
    simp only [List.nil_append]
    cases hp : CSD.pop B k with
    | ok p => simp [Except.map]
    | error e => simp [Except.map]
  | cons kv A ih =>
    have hne : kv.1 ≠ k := by
      intro he
      rw [CSD.find?_cons_eq he] at h
      exact Option.noConfusion h
    have h' : CSD.find? A k = none := by
      rw [CSD.find?_cons_ne hne] at h
      exact h
    rw [List.cons_append, CSD.pop_cons_ne hne, ih h']
    cases hp : CSD.pop B k with
    | ok p => simp [Except.map]
    | error e => simp [Except.map]

/-- Setting an absent key appends the binding. -/
theorem CSD.set_append_fresh {α : Type} {d : CSD α} {k : SKey} (v : List α)
    (h : CSD.find? d k = none) : CSD.set d k v = d ++ [(k, v)] := by
  induction d with
  | nil => rfl
  | cons kv d ih =>
    have hne : kv.1 ≠ k := by
      intro he
      rw [CSD.find?_cons_eq he] at h
      exact Option.noConfusion h
    have h' : CSD.find? d k = none := by
      rw [CSD.find?_cons_ne hne] at h
      exact h
    unfold CSD.set
    rw [if_neg hne, ih h']
    rfl

/-- Setting a key absent from a prefix region leaves the prefix in place. -/
theorem CSD.set_append_left {α : Type} {P : CSD α} (D : CSD α) {k : SKey} (v : List α)
    (h : CSD.find? P k = none) : CSD.set (P ++ D) k v = P ++ CSD.set D k v := by
  induction P with
  | nil => rfl
  | cons kv P ih =>
    have hne : kv.1 ≠ k := by
      intro he
      rw [CSD.find?_cons_eq he] at h
      exact Option.noConfusion h
    have h' : CSD.find? P k = none := by
      rw [CSD.find?_cons_ne hne] at h
      exact h
    show (if kv.1 = k then (k, v) :: (P ++ D) else kv :: CSD.set (P ++ D) k v)
      = kv :: (P ++ CSD.set D k v)
    rw [if_neg hne, ih h']

/-- Setting on the empty dict. -/
theorem CSD.set_nil {α : Type} (k : SKey) (v : List α) :
    CSD.set ([] : CSD α) k v = [(k, v)] := rfl

/-- Setting walks past a binding with a different key. -/
theorem CSD.set_cons_ne {α : Type} {kv : SKey × List α} {d : CSD α} {k : SKey} (v : List α)
    (h : kv.1 ≠ k) : CSD.set (kv :: d) k v = kv :: CSD.set d k v := by
  show (if kv.1 = k then (k, v) :: d else kv :: CSD.set d k v) = kv :: CSD.set d k v
  rw [if_neg h]

/-! ### Key-family lemmas for the layout schema -/

/-- Lookup misses the separate vision region unless the key is one of its
`in_proj` keys. -/
theorem mkVisSep_find?_none {α : Type} (md : Bool) :
    ∀ (ts : List (List α × List α)) (j0 : ℕ) (k : SKey),
      (∀ j, j0 ≤ j → k ≠ ⟨md, .vis j .ipW⟩ ∧ k ≠ ⟨md, .vis j .ipB⟩) →
      CSD.find? (mkVisSep md j0 ts) k = none
  | [], _, _, _ => rfl
  | t :: ts, j0, k, h => by
    rw [mkVisSep]
    rw [show ([(⟨md, .vis j0 .ipW⟩, t.1), (⟨md, .vis j0 .ipB⟩, t.2)] ++ mkVisSep md (j0 + 1) ts)
      = (⟨md, .vis j0 .ipW⟩, t.1) :: (⟨md, .vis j0 .ipB⟩, t.2) :: mkVisSep md (j0 + 1) ts
      from rfl]
    rw [CSD.find?_cons_ne (fun he => (h j0 (Nat.le_refl _)).1 he.symm)]
    rw [CSD.find?_cons_ne (fun he => (h j0 (Nat.le_refl _)).2 he.symm)]
    exact mkVisSep_find?_none md ts (j0 + 1) k (fun j hj => h j (by omega))

/-- Lookup misses the fused vision region unless the key is one of its `Wqkv`
keys. -/
theorem mkVisFused_find?_none {α : Type} (md : Bool) :
    ∀ (ts : List (List α × List α)) (j0 : ℕ) (k : SKey),
      (∀ j, j0 ≤ j → k ≠ ⟨md, .vis j .qkvW⟩ ∧ k ≠ ⟨md, .vis j .qkvB⟩) →
      CSD.find? (mkVisFused md j0 ts) k = none
  | [], _, _, _ => rfl
  | t :: ts, j0, k, h => by
    rw [mkVisFused]
    rw [show ([(⟨md, .vis j0 .qkvW⟩, t.1), (⟨md, .vis j0 .qkvB⟩, t.2)]
          ++ mkVisFused md (j0 + 1) ts)
      = (⟨md, .vis j0 .qkvW⟩, t.1) :: (⟨md, .vis j0 .qkvB⟩, t.2) :: mkVisFused md (j0 + 1) ts
      from rfl]
    rw [CSD.find?_cons_ne (fun he => (h j0 (Nat.le_refl _)).1 he.symm)]
    rw [CSD.find?_cons_ne (fun he => (h j0 (Nat.le_refl _)).2 he.symm)]
    exact mkVisFused_find?_none md ts (j0 + 1) k (fun j hj => h j (by omega))

/-- Lookup misses the separate text region unless the key is one of its layer
keys. -/
theorem mkBertSep_find?_none {α : Type} (md : Bool) :
    ∀ (ls : List (BertSepLayer α)) (i0 : ℕ) (k : SKey),
      (∀ i f, i0 ≤ i → k ≠ ⟨md, .bert i f⟩) →
      CSD.find? (mkBertSep md i0 ls) k = none
  | [], _, _, _ => rfl
  | l :: ls, i0, k, h => by
    rw [mkBertSep, CSD.find?_append]
    rw [CSD.find?_eq_none (d := bertSepEntries md i0 l) (by
      intro kv hkv he
      rcases (by simpa [bertSepEntries] using hkv : kv = (⟨md, .bert i0 .qW⟩, l.qw)
          ∨ kv = (⟨md, .bert i0 .qB⟩, l.qb) ∨ kv = (⟨md, .bert i0 .kW⟩, l.kw)
          ∨ kv = (⟨md, .bert i0 .kB⟩, l.kb) ∨ kv = (⟨md, .bert i0 .vW⟩, l.vw)
          ∨ kv = (⟨md, .bert i0 .vB⟩, l.vb) ∨ kv = (⟨md, .bert i0 .denseW⟩, l.dw)
          ∨ kv = (⟨md, .bert i0 .denseB⟩, l.db)) with
        h1 | h1 | h1 | h1 | h1 | h1 | h1 | h1 <;>
        · subst h1
          exact h i0 _ (Nat.le_refl _) he.symm)]
    rw [mkBertSep_find?_none md ls (i0 + 1) k (fun i f hi => h i f (by omega))]
    rfl

/-- Lookup misses the fused text region unless the key is one of its layer keys. -/
theorem mkBertFused_find?_none {α : Type} (md : Bool) :
    ∀ (ls : List (BertSepLayer α)) (i0 : ℕ) (k : SKey),
      (∀ i f, i0 ≤ i → k ≠ ⟨md, .bert i f⟩) →
      CSD.find? (mkBertFused md i0 ls) k = none
  | [], _, _, _ => rfl
  | l :: ls, i0, k, h => by
    rw [mkBertFused, CSD.find?_append]
    rw [CSD.find?_eq_none (d := bertFusedEntries md i0 l) (by
      intro kv hkv he
      rcases (by simpa [bertFusedEntries] using hkv :
          kv = (⟨md, .bert i0 .wqkvW⟩, l.qw ++ l.kw ++ l.vw)
          ∨ kv = (⟨md, .bert i0 .wqkvB⟩, l.qb ++ l.kb ++ l.vb)
          ∨ kv = (⟨md, .bert i0 .oprojW⟩, l.dw)
          ∨ kv = (⟨md, .bert i0 .oprojB⟩, l.db)) with
        h1 | h1 | h1 | h1 <;>
        · subst h1
          exact h i0 _ (Nat.le_refl _) he.symm)]
    rw [mkBertFused_find?_none md ls (i0 + 1) k (fun i f hi => h i f (by omega))]
    rfl

/-- Lookup misses the re-separated text region unless the key is one of its
layer keys. -/
theorem mkBertResep_find?_none {α : Type} (md : Bool) :
    ∀ (ls : List (BertSepLayer α)) (i0 : ℕ) (k : SKey),
      (∀ i f, i0 ≤ i → k ≠ ⟨md, .bert i f⟩) →
      CSD.find? (mkBertResep md i0 ls) k = none
  | [], _, _, _ => rfl
  | l :: ls, i0, k, h => by
    rw [mkBertResep, CSD.find?_append]
    rw [CSD.find?_eq_none (d := bertResepEntries md i0 l) (by
      intro kv hkv he
      rcases (by simpa [bertResepEntries] using hkv : kv = (⟨md, .bert i0 .qW⟩, l.qw)
          ∨ kv = (⟨md, .bert i0 .kW⟩, l.kw) ∨ kv = (⟨md, .bert i0 .vW⟩, l.vw)
          ∨ kv = (⟨md, .bert i0 .qB⟩, l.qb) ∨ kv = (⟨md, .bert i0 .kB⟩, l.kb)
          ∨ kv = (⟨md, .bert i0 .vB⟩, l.vb) ∨ kv = (⟨md, .bert i0 .denseW⟩, l.dw)
          ∨ kv = (⟨md, .bert i0 .denseB⟩, l.db)) with
        h1 | h1 | h1 | h1 | h1 | h1 | h1 | h1 <;>
        · subst h1
          exact h i0 _ (Nat.le_refl _) he.symm)]
    rw [mkBertResep_find?_none md ls (i0 + 1) k (fun i f hi => h i f (by omega))]
    rfl

/-- Lookup misses the untouched-key region unless the key is a raw one. -/
theorem extras_find?_none {α : Type} (md : Bool) (extra : List (String × List α))
    (k : SKey) (h : ∀ s, k ≠ ⟨md, .raw s⟩) :
    CSD.find? (mkExtras md extra) k = none := by
  refine CSD.find?_eq_none ?_
  intro kv hkv he
  unfold mkExtras at hkv
  obtain ⟨p, _, hp⟩ := List.mem_map.1 hkv
  subst hp
  exact h p.1 he.symm

/-- Every binding of the untouched-key region has a raw key under the region's
prefix flag. -/
theorem mem_mkExtras_raw {α : Type} (md : Bool) (extra : List (String × List α))
    (kv : SKey × List α) (h : kv ∈ mkExtras md extra) : ∃ s, kv.1 = ⟨md, .raw s⟩ := by
  unfold mkExtras at h
  obtain ⟨p, -, hp⟩ := List.mem_map.1 h
  subst hp
  exact ⟨p.1, rfl⟩

/-- One text separate-to-fused iteration on a dict whose layer-`i` region sits
between a prefix `P` and a suffix `R` free of layer-`i` keys: the eight
separate entries are consumed and the four fused entries appended. -/
theorem textS2Fbody_step {α : Type} (md : Bool) (i : ℕ) (l : BertSepLayer α) (P R : CSD α)
    (hP : ∀ (m' : Bool) (f : BertF), CSD.find? P ⟨m', .bert i f⟩ = none)
    (hR : ∀ (m' : Bool) (f : BertF), CSD.find? R ⟨m', .bert i f⟩ = none) :
    textS2Fbody md i (P ++ (bertSepEntries md i l ++ R))
      = .ok (P ++ (R ++ bertFusedEntries md i l)) := by
  simp [textS2Fbody, bertSepEntries, bertFusedEntries,
    CSD.pop_append_left _ (hP md .qW), CSD.pop_append_left _ (hP md .kW),
    CSD.pop_append_left _ (hP md .vW), CSD.pop_append_left _ (hP md .qB),
    CSD.pop_append_left _ (hP md .kB), CSD.pop_append_left _ (hP md .vB),
    CSD.pop_append_left _ (hP md .denseW), CSD.pop_append_left _ (hP md .denseB),
    CSD.pop_cons_eq, CSD.pop_cons_ne, CSD.find?_append, CSD.find?_cons_ne, CSD.find?_cons_eq,
    CSD.find?_nil, CSD.set_append_left, CSD.set_append_fresh, CSD.set_cons_ne, CSD.set_nil,
    hP, hR, Except.map, tmBind_ok, tmBind_error]

/-- Chunking a 3-way concatenation of equal-length nonempty pieces recovers the
pieces. -/
theorem tchunk3_eq {α : Type} (a b c : List α) (hab : a.length = b.length)
    (hbc : b.length = c.length) (h1 : 1 ≤ a.length) :
    tchunk3 (a ++ b ++ c) = .ok (a, b, c) := by
  unfold tchunk3
  have hn : (a ++ b ++ c).length = 3 * a.length := by
    simp [List.length_append]
    omega
  have hc : ((a ++ b ++ c).length + 2) / 3 = a.length := by
    rw [hn]
    omega
  rw [hc, List.append_assoc]
  rw [if_neg (by rw [List.length_append, List.length_append]; omega)]
  rw [if_pos (by rw [List.length_append, List.length_append]; omega)]
  rw [List.take_left' rfl, List.drop_left' rfl]
  rw [List.take_left' hab.symm]
  rw [show 2 * a.length = a.length + a.length by ring, ← List.drop_drop]
  rw [List.drop_left' rfl, List.drop_left' hab.symm]

/-- One text fused-to-separate iteration (prefix flag `true`, matching the
hardcoded `module.` pop of line 710) on a dict whose layer-`i` fused region
sits between `P` and `R` free of layer-`i` keys. -/
theorem textF2Sbody_step {α : Type} (i : ℕ) (l : BertSepLayer α) (P R : CSD α)
    (hP : ∀ (m' : Bool) (f : BertF), CSD.find? P ⟨m', .bert i f⟩ = none)
    (hR : ∀ (m' : Bool) (f : BertF), CSD.find? R ⟨m', .bert i f⟩ = none)
    (hw : l.qw.length = l.kw.length ∧ l.kw.length = l.vw.length ∧ 1 ≤ l.qw.length)
    (hb : l.qb.length = l.kb.length ∧ l.kb.length = l.vb.length ∧ 1 ≤ l.qb.length) :
    textF2Sbody true i (P ++ (bertFusedEntries true i l ++ R))
      = .ok (P ++ (R ++ bertResepEntries true i l)) := by
  have hcw := tchunk3_eq l.qw l.kw l.vw hw.1 hw.2.1 hw.2.2
  have hcb := tchunk3_eq l.qb l.kb l.vb hb.1 hb.2.1 hb.2.2
  rw [List.append_assoc] at hcw hcb
  simp [textF2Sbody, bertFusedEntries, bertResepEntries,
    CSD.pop_append_left _ (hP true .wqkvW), CSD.pop_append_left _ (hP true .wqkvB),
    CSD.pop_append_left _ (hP true .oprojW), CSD.pop_append_left _ (hP true .oprojB),
    CSD.pop_cons_eq, CSD.pop_cons_ne, CSD.find?_append, CSD.find?_cons_ne, CSD.find?_cons_eq,
    CSD.find?_nil, CSD.set_append_left, CSD.set_append_fresh, CSD.set_cons_ne, CSD.set_nil,
    hP, hR, hcw, hcb, Except.map, tmBind_ok, tmBind_error]

/-- The fused entries of layer `i` hold no key of a different layer `i'`. -/
theorem bertFusedEntries_find?_ne {α : Type} (md : Bool) (i : ℕ) (l : BertSepLayer α)
    (m' : Bool) (i' : ℕ) (f : BertF) (h : i ≠ i') :
    CSD.find? (bertFusedEntries md i l) ⟨m', .bert i' f⟩ = none := by
  refine CSD.find?_eq_none ?_
  intro kv hkv he
  rcases (by simpa [bertFusedEntries] using hkv :
      kv = (⟨md, .bert i .wqkvW⟩, l.qw ++ l.kw ++ l.vw)
      ∨ kv = (⟨md, .bert i .wqkvB⟩, l.qb ++ l.kb ++ l.vb)
      ∨ kv = (⟨md, .bert i .oprojW⟩, l.dw)
      ∨ kv = (⟨md, .bert i .oprojB⟩, l.db)) with
    h1 | h1 | h1 | h1 <;>
  · subst h1
    simp at he
    exact h he.2.1

/-- The re-separated entries of layer `i` hold no key of a different layer `i'`. -/
theorem bertResepEntries_find?_ne {α : Type} (md : Bool) (i : ℕ) (l : BertSepLayer α)
    (m' : Bool) (i' : ℕ) (f : BertF) (h : i ≠ i') :
    CSD.find? (bertResepEntries md i l) ⟨m', .bert i' f⟩ = none := by
  refine CSD.find?_eq_none ?_
  intro kv hkv he
  rcases (by simpa [bertResepEntries] using hkv : kv = (⟨md, .bert i .qW⟩, l.qw)
      ∨ kv = (⟨md, .bert i .kW⟩, l.kw) ∨ kv = (⟨md, .bert i .vW⟩, l.vw)
      ∨ kv = (⟨md, .bert i .qB⟩, l.qb) ∨ kv = (⟨md, .bert i .kB⟩, l.kb)
      ∨ kv = (⟨md, .bert i .vB⟩, l.vb) ∨ kv = (⟨md, .bert i .denseW⟩, l.dw)
      ∨ kv = (⟨md, .bert i .denseB⟩, l.db)) with
    h1 | h1 | h1 | h1 | h1 | h1 | h1 | h1 <;>
  · subst h1
    simp at he
    exact h he.2.1

/-- Running the text separate-to-fused loop over the schema: layers `i` onward
in separate layout followed by a region `R` with no such layer keys; each layer
is fused and appended. -/
theorem textS2F_run {α : Type} (md : Bool) :
    ∀ (ls : List (BertSepLayer α)) (i : ℕ) (P R : CSD α) (fuel : ℕ),
      ls.length < fuel →
      (∀ (m' : Bool) (i' : ℕ) (f : BertF), i ≤ i' →
        CSD.find? P ⟨m', .bert i' f⟩ = none) →
      (∀ (m' : Bool) (i' : ℕ) (f : BertF), i ≤ i' →
        CSD.find? R ⟨m', .bert i' f⟩ = none) →
      textS2F md fuel i (P ++ (mkBertSep md i ls ++ R))
        = .ok (P ++ (R ++ mkBertFused md i ls))
  | [], i, P, R, fuel, hfuel, hP, hR => by
    cases fuel with
    | zero => omega
    | succ f =>
      simp [textS2F, mkBertSep, mkBertFused, CSD.find?_append,
        hP md i .qW (Nat.le_refl i), hR md i .qW (Nat.le_refl i)]
  | l :: ls, i, P, R, fuel, hfuel, hP, hR => by
    cases fuel with
    | zero => simp at hfuel
    | succ f =>
      have hfindmid : CSD.find? (mkBertSep md i (l :: ls) ++ R) ⟨md, .bert i .qW⟩
          = some l.qw := by
        rw [mkBertSep, List.append_assoc]
        rw [show bertSepEntries md i l ++ (mkBertSep md (i + 1) ls ++ R)
          = (⟨md, .bert i .qW⟩, l.qw) :: ((bertSepEntries md i l).tail
              ++ (mkBertSep md (i + 1) ls ++ R)) from rfl]
        exact CSD.find?_cons_eq rfl
      have hfind : CSD.find? (P ++ (mkBertSep md i (l :: ls) ++ R)) ⟨md, .bert i .qW⟩
          = some l.qw := by
        rw [CSD.find?_append, hP md i .qW (Nat.le_refl i), hfindmid]
        rfl
      have hstep := textS2Fbody_step md i l P (mkBertSep md (i + 1) ls ++ R)
        (fun m' f => hP m' i f (Nat.le_refl i))
        (fun m' f => by
          rw [CSD.find?_append]
          rw [mkBertSep_find?_none md ls (i + 1) _ (by
            intro i' f' hi' he
            rw [SKey.mk.injEq, CoreKey.bert.injEq] at he
            omega)]
          rw [hR m' i f (Nat.le_refl i)]
          rfl)
      have hR' : ∀ (m' : Bool) (i' : ℕ) (f : BertF), i + 1 ≤ i' →
          CSD.find? (R ++ bertFusedEntries md i l) ⟨m', .bert i' f⟩ = none := by
        intro m' i' f hi'
        rw [CSD.find?_append, hR m' i' f (by omega),
          bertFusedEntries_find?_ne md i l m' i' f (by omega)]
        rfl
      have hrec := textS2F_run md ls (i + 1) P (R ++ bertFusedEntries md i l) f
        (by simpa using hfuel) (fun m' i' f hi' => hP m' i' f (by omega)) hR'
      show textS2F md (f + 1) i (P ++ (mkBertSep md i (l :: ls) ++ R)) = _
      rw [textS2F.eq_def]
      simp only [hfind, Option.isSome_some, if_pos]
      rw [show P ++ (mkBertSep md i (l :: ls) ++ R)
        = P ++ (bertSepEntries md i l ++ (mkBertSep md (i + 1) ls ++ R)) by
          rw [mkBertSep]; simp]
      rw [hstep, tmBind_ok]
      rw [show P ++ ((mkBertSep md (i + 1) ls ++ R) ++ bertFusedEntries md i l)
        = P ++ (mkBertSep md (i + 1) ls ++ (R ++ bertFusedEntries md i l)) by simp]
      rw [hrec]
      rw [mkBertFused]
      simp

/-- Running the text fused-to-separate loop over the schema (prefix flag
`true`): each fused layer is re-separated and appended. -/
theorem textF2S_run {α : Type} :
    ∀ (ls : List (BertSepLayer α)) (i : ℕ) (P R : CSD α) (fuel : ℕ),
      ls.length < fuel →
      (∀ l ∈ ls, (l.qw.length = l.kw.length ∧ l.kw.length = l.vw.length ∧ 1 ≤ l.qw.length)
        ∧ (l.qb.length = l.kb.length ∧ l.kb.length = l.vb.length ∧ 1 ≤ l.qb.length)) →
      (∀ (m' : Bool) (i' : ℕ) (f : BertF), i ≤ i' →
        CSD.find? P ⟨m', .bert i' f⟩ = none) →
      (∀ (m' : Bool) (i' : ℕ) (f : BertF), i ≤ i' →
        CSD.find? R ⟨m', .bert i' f⟩ = none) →
      textF2S true fuel i (P ++ (mkBertFused true i ls ++ R))
        = .ok (P ++ (R ++ mkBertResep true i ls))
  | [], i, P, R, fuel, hfuel, _, hP, hR => by
    cases fuel with
    | zero => omega
    | succ f =>
      simp [textF2S, mkBertFused, mkBertResep, CSD.find?_append,
        hP true i .wqkvW (Nat.le_refl i), hR true i .wqkvW (Nat.le_refl i)]
  | l :: ls, i, P, R, fuel, hfuel, hlen, hP, hR => by
    cases fuel with
    | zero => simp at hfuel
    | succ f =>
      have hfindmid : CSD.find? (mkBertFused true i (l :: ls) ++ R) ⟨true, .bert i .wqkvW⟩
          = some (l.qw ++ l.kw ++ l.vw) := by
        rw [mkBertFused, List.append_assoc]
        rw [show bertFusedEntries true i l ++ (mkBertFused true (i + 1) ls ++ R)
          = (⟨true, .bert i .wqkvW⟩, l.qw ++ l.kw ++ l.vw) :: ((bertFusedEntries true i l).tail
              ++ (mkBertFused true (i + 1) ls ++ R)) from rfl]
        exact CSD.find?_cons_eq rfl
      have hfind : CSD.find? (P ++ (mkBertFused true i (l :: ls) ++ R)) ⟨true, .bert i .wqkvW⟩
          = some (l.qw ++ l.kw ++ l.vw) := by
        rw [CSD.find?_append, hP true i .wqkvW (Nat.le_refl i), hfindmid]
        rfl
      have hstep := textF2Sbody_step i l P (mkBertFused true (i + 1) ls ++ R)
        (fun m' f => hP m' i f (Nat.le_refl i))
        (fun m' f => by
          rw [CSD.find?_append]
          rw [mkBertFused_find?_none true ls (i + 1) _ (by
            intro i' f' hi' he
            rw [SKey.mk.injEq, CoreKey.bert.injEq] at he
            omega)]
          rw [hR m' i f (Nat.le_refl i)]
          rfl)
        ((hlen l (by simp)).1) ((hlen l (by simp)).2)
      have hR' : ∀ (m' : Bool) (i' : ℕ) (f : BertF), i + 1 ≤ i' →
          CSD.find? (R ++ bertResepEntries true i l) ⟨m', .bert i' f⟩ = none := by
        intro m' i' f hi'
        rw [CSD.find?_append, hR m' i' f (by omega),
          bertResepEntries_find?_ne true i l m' i' f (by omega)]
        rfl
      have hrec := textF2S_run ls (i + 1) P (R ++ bertResepEntries true i l) f
        (by simpa using hfuel) (fun l' hl' => hlen l' (by simp [hl']))
        (fun m' i' f hi' => hP m' i' f (by omega)) hR'
      show textF2S true (f + 1) i (P ++ (mkBertFused true i (l :: ls) ++ R)) = _
      rw [textF2S.eq_def]
      simp only [hfind, Option.isSome_some, if_pos]
      rw [show P ++ (mkBertFused true i (l :: ls) ++ R)
        = P ++ (bertFusedEntries true i l ++ (mkBertFused true (i + 1) ls ++ R)) by
          rw [mkBertFused]; simp]
      rw [hstep, tmBind_ok]
      rw [show P ++ ((mkBertFused true (i + 1) ls ++ R) ++ bertResepEntries true i l)
        = P ++ (mkBertFused true (i + 1) ls ++ (R ++ bertResepEntries true i l)) by simp]
      rw [hrec]
      rw [mkBertResep]
      simp

/-- The separate-to-fused vision pass ignores keys that are not separate vision
keys. -/
theorem visS2F_skip_all {α : Type} :
    ∀ (ks : List SKey) (d : CSD α),
      (∀ k ∈ ks, ∀ j, k.core ≠ .vis j .ipW ∧ k.core ≠ .vis j .ipB) →
      visS2F d ks = .ok d
  | [], d, _ => rfl
  | k :: ks, d, h => by
    rw [visS2F]
    have hk := h k (by simp)
    have hstep : (match k.core with
        | .vis j VisF.ipW => renameKey d k ⟨k.mod, .vis j .qkvW⟩
        | .vis j VisF.ipB => renameKey d k ⟨k.mod, .vis j .qkvB⟩
        | _ => .ok d) = .ok d := by
      rcases hc : k.core with ⟨j, f⟩ | ⟨i, f⟩ | s
      · cases f
        · exact absurd hc (hk j).1
        · exact absurd hc (hk j).2
        · rfl
        · rfl
      · rfl
      · rfl
    rw [hstep, tmBind_ok]
    exact visS2F_skip_all ks d (fun k' hk' => h k' (by simp [hk']))

/-- The fused-to-separate vision pass ignores keys that are not fused vision
keys. -/
theorem visF2S_skip_all {α : Type} :
    ∀ (ks : List SKey) (d : CSD α),
      (∀ k ∈ ks, ∀ j, k.core ≠ .vis j .qkvW ∧ k.core ≠ .vis j .qkvB) →
      visF2S d ks = .ok d
  | [], d, _ => rfl
  | k :: ks, d, h => by
    rw [visF2S]
    have hk := h k (by simp)
    have hstep : (match k.core with
        | .vis j VisF.qkvW => renameKey d k ⟨k.mod, .vis j .ipW⟩
        | .vis j VisF.qkvB => renameKey d k ⟨k.mod, .vis j .ipB⟩
        | _ => .ok d) = .ok d := by
      rcases hc : k.core with ⟨j, f⟩ | ⟨i, f⟩ | s
      · cases f
        · rfl
        · rfl
        · exact absurd hc (hk j).1
        · exact absurd hc (hk j).2
      · rfl
      · rfl
    rw [hstep, tmBind_ok]
    exact visF2S_skip_all ks d (fun k' hk' => h k' (by simp [hk']))

/-- The vision passes process their key snapshot sequentially. -/
theorem visS2F_keys_append {α : Type} :
    ∀ (ks1 ks2 : List SKey) (d : CSD α),
      visS2F d (ks1 ++ ks2) = visS2F d ks1 >>= fun d' => visS2F d' ks2
  | [], ks2, d => rfl
  | k :: ks1, ks2, d => by
    rw [List.cons_append, visS2F, visS2F]
    cases hstep : (match k.core with
        | .vis j VisF.ipW => renameKey d k ⟨k.mod, .vis j .qkvW⟩
        | .vis j VisF.ipB => renameKey d k ⟨k.mod, .vis j .qkvB⟩
        | _ => .ok d) with
    | error e => rfl
    | ok d' =>
      rw [tmBind_ok, tmBind_ok, visS2F_keys_append ks1 ks2 d']

/-- The vision passes process their key snapshot sequentially (fused to
separate). -/
theorem visF2S_keys_append {α : Type} :
    ∀ (ks1 ks2 : List SKey) (d : CSD α),
      visF2S d (ks1 ++ ks2) = visF2S d ks1 >>= fun d' => visF2S d' ks2
  | [], ks2, d => rfl
  | k :: ks1, ks2, d => by
    rw [List.cons_append, visF2S, visF2S]
    cases hstep : (match k.core with
        | .vis j VisF.qkvW => renameKey d k ⟨k.mod, .vis j .ipW⟩
        | .vis j VisF.qkvB => renameKey d k ⟨k.mod, .vis j .ipB⟩
        | _ => .ok d) with
    | error e => rfl
    | ok d' =>
      rw [tmBind_ok, tmBind_ok, visF2S_keys_append ks1 ks2 d']

/-- Computation rules for one vision rename step on a separate key. -/
theorem visS2F_cons_ipW {α : Type} (d : CSD α) (md : Bool) (j : ℕ) (ks : List SKey) :
    visS2F d (⟨md, .vis j .ipW⟩ :: ks)
      = renameKey d ⟨md, .vis j .ipW⟩ ⟨md, .vis j .qkvW⟩ >>= fun d' => visS2F d' ks := rfl

/-- Computation rule for one vision rename step on a separate bias key. -/
theorem visS2F_cons_ipB {α : Type} (d : CSD α) (md : Bool) (j : ℕ) (ks : List SKey) :
    visS2F d (⟨md, .vis j .ipB⟩ :: ks)
      = renameKey d ⟨md, .vis j .ipB⟩ ⟨md, .vis j .qkvB⟩ >>= fun d' => visS2F d' ks := rfl

/-- Computation rule for one vision rename step on a fused weight key. -/
theorem visF2S_cons_qkvW {α : Type} (d : CSD α) (md : Bool) (j : ℕ) (ks : List SKey) :
    visF2S d (⟨md, .vis j .qkvW⟩ :: ks)
      = renameKey d ⟨md, .vis j .qkvW⟩ ⟨md, .vis j .ipW⟩ >>= fun d' => visF2S d' ks := rfl

/-- Computation rule for one vision rename step on a fused bias key. -/
theorem visF2S_cons_qkvB {α : Type} (d : CSD α) (md : Bool) (j : ℕ) (ks : List SKey) :
    visF2S d (⟨md, .vis j .qkvB⟩ :: ks)
      = renameKey d ⟨md, .vis j .qkvB⟩ ⟨md, .vis j .ipB⟩ >>= fun d' => visF2S d' ks := rfl

/-- Running the separate-to-fused vision rename over its own keys: every
`in_proj` entry is popped and re-appended under its `Wqkv` name. -/
theorem visS2F_run {α : Type} (md : Bool) :
    ∀ (ts : List (List α × List α)) (j : ℕ) (P R : CSD α),
      (∀ (m' : Bool) (j' : ℕ) (f : VisF), j ≤ j' →
        CSD.find? P ⟨m', .vis j' f⟩ = none) →
      (∀ (m' : Bool) (j' : ℕ) (f : VisF), j ≤ j' →
        CSD.find? R ⟨m', .vis j' f⟩ = none) →
      visS2F (P ++ (mkVisSep md j ts ++ R)) ((mkVisSep md j ts).map Prod.fst)
        = .ok (P ++ (R ++ mkVisFused md j ts))
  | [], j, P, R, hP, hR => by
    simp [mkVisSep, mkVisFused, visS2F]
  | t :: ts, j, P, R, hP, hR => by
    have hsepW : CSD.find? (mkVisSep md (j + 1) ts) ⟨md, .vis j .qkvW⟩ = none :=
      mkVisSep_find?_none md ts (j + 1) _ (fun j' hj' => ⟨by simp, by simp⟩)
    have hsepB : CSD.find? (mkVisSep md (j + 1) ts) ⟨md, .vis j .qkvB⟩ = none :=
      mkVisSep_find?_none md ts (j + 1) _ (fun j' hj' => ⟨by simp, by simp⟩)
    have hkeys : (mkVisSep md j (t :: ts)).map Prod.fst
        = ⟨md, .vis j .ipW⟩ :: ⟨md, .vis j .ipB⟩ :: (mkVisSep md (j + 1) ts).map Prod.fst := by
      rw [mkVisSep]
      simp
    have hd0 : P ++ (mkVisSep md j (t :: ts) ++ R)
        = P ++ ((⟨md, .vis j .ipW⟩, t.1) :: (⟨md, .vis j .ipB⟩, t.2)
            :: (mkVisSep md (j + 1) ts ++ R)) := by
      rw [mkVisSep]
      simp
    have h1 : renameKey (P ++ ((⟨md, .vis j .ipW⟩, t.1) :: (⟨md, .vis j .ipB⟩, t.2)
          :: (mkVisSep md (j + 1) ts ++ R))) ⟨md, .vis j .ipW⟩ ⟨md, .vis j .qkvW⟩
        = .ok (P ++ ((⟨md, .vis j .ipB⟩, t.2)
            :: (mkVisSep md (j + 1) ts ++ (R ++ [(⟨md, .vis j .qkvW⟩, t.1)])))) := by
      simp [renameKey, CSD.pop_append_left _ (hP md j .ipW (Nat.le_refl j)),
        CSD.pop_cons_eq, Except.map, CSD.set_append_left, CSD.set_cons_ne,
        CSD.set_append_fresh, CSD.find?_append, CSD.find?_cons_ne, CSD.find?_nil,
        hP md j .qkvW (Nat.le_refl j), hR md j .qkvW (Nat.le_refl j), hsepW]
    have h2 : renameKey (P ++ ((⟨md, .vis j .ipB⟩, t.2)
          :: (mkVisSep md (j + 1) ts ++ (R ++ [(⟨md, .vis j .qkvW⟩, t.1)]))))
          ⟨md, .vis j .ipB⟩ ⟨md, .vis j .qkvB⟩
        = .ok (P ++ (mkVisSep md (j + 1) ts
            ++ ((R ++ [(⟨md, .vis j .qkvW⟩, t.1)]) ++ [(⟨md, .vis j .qkvB⟩, t.2)]))) := by
      simp [renameKey, CSD.pop_append_left _ (hP md j .ipB (Nat.le_refl j)),
        CSD.pop_cons_eq, Except.map, CSD.set_append_left, CSD.set_cons_ne,
        CSD.set_append_fresh, CSD.find?_append, CSD.find?_cons_ne, CSD.find?_nil,
        hP md j .qkvB (Nat.le_refl j), hR md j .qkvB (Nat.le_refl j), hsepB]
    have hR' : ∀ (m' : Bool) (j' : ℕ) (f : VisF), j + 1 ≤ j' →
        CSD.find? ((R ++ [(⟨md, .vis j .qkvW⟩, t.1)]) ++ [(⟨md, .vis j .qkvB⟩, t.2)])
          ⟨m', .vis j' f⟩ = none := by
      intro m' j' f hj'
      rw [CSD.find?_append, CSD.find?_append, hR m' j' f (by omega)]
      rw [CSD.find?_cons_ne (by
        intro he
        rw [SKey.mk.injEq] at he
        obtain ⟨-, hcore⟩ := he
        rw [CoreKey.vis.injEq] at hcore
        omega)]
      rw [CSD.find?_cons_ne (by
        intro he
        rw [SKey.mk.injEq] at he
        obtain ⟨-, hcore⟩ := he
        rw [CoreKey.vis.injEq] at hcore
        omega)]
      rfl
    have hrec := visS2F_run md ts (j + 1) P
      ((R ++ [(⟨md, .vis j .qkvW⟩, t.1)]) ++ [(⟨md, .vis j .qkvB⟩, t.2)])
      (fun m' j' f hj' => hP m' j' f (by omega)) hR'
    rw [hkeys, hd0, visS2F_cons_ipW, h1, tmBind_ok, visS2F_cons_ipB, h2, tmBind_ok, hrec]
    rw [mkVisFused]
    simp

/-- Running the fused-to-separate vision rename over its own keys: every `Wqkv`
entry is popped and re-appended under its `in_proj` name. -/
theorem visF2S_run {α : Type} (md : Bool) :
    ∀ (ts : List (List α × List α)) (j : ℕ) (P R : CSD α),
      (∀ (m' : Bool) (j' : ℕ) (f : VisF), j ≤ j' →
        CSD.find? P ⟨m', .vis j' f⟩ = none) →
      (∀ (m' : Bool) (j' : ℕ) (f : VisF), j ≤ j' →
        CSD.find? R ⟨m', .vis j' f⟩ = none) →
      visF2S (P ++ (mkVisFused md j ts ++ R)) ((mkVisFused md j ts).map Prod.fst)
        = .ok (P ++ (R ++ mkVisSep md j ts))
  | [], j, P, R, hP, hR => by
    simp [mkVisSep, mkVisFused, visF2S]
  | t :: ts, j, P, R, hP, hR => by
    have hsepW : CSD.find? (mkVisFused md (j + 1) ts) ⟨md, .vis j .ipW⟩ = none :=
      mkVisFused_find?_none md ts (j + 1) _ (fun j' hj' => ⟨by simp, by simp⟩)
    have hsepB : CSD.find? (mkVisFused md (j + 1) ts) ⟨md, .vis j .ipB⟩ = none :=
      mkVisFused_find?_none md ts (j + 1) _ (fun j' hj' => ⟨by simp, by simp⟩)
    have hkeys : (mkVisFused md j (t :: ts)).map Prod.fst
        = ⟨md, .vis j .qkvW⟩ :: ⟨md, .vis j .qkvB⟩
            :: (mkVisFused md (j + 1) ts).map Prod.fst := by
      rw [mkVisFused]
      simp
    have hd0 : P ++ (mkVisFused md j (t :: ts) ++ R)
        = P ++ ((⟨md, .vis j .qkvW⟩, t.1) :: (⟨md, .vis j .qkvB⟩, t.2)
            :: (mkVisFused md (j + 1) ts ++ R)) := by
      rw [mkVisFused]
      simp
    have h1 : renameKey (P ++ ((⟨md, .vis j .qkvW⟩, t.1) :: (⟨md, .vis j .qkvB⟩, t.2)
          :: (mkVisFused md (j + 1) ts ++ R))) ⟨md, .vis j .qkvW⟩ ⟨md, .vis j .ipW⟩
        = .ok (P ++ ((⟨md, .vis j .qkvB⟩, t.2)
            :: (mkVisFused md (j + 1) ts ++ (R ++ [(⟨md, .vis j .ipW⟩, t.1)])))) := by
      simp [renameKey, CSD.pop_append_left _ (hP md j .qkvW (Nat.le_refl j)),
        CSD.pop_cons_eq, Except.map, CSD.set_append_left, CSD.set_cons_ne,
        CSD.set_append_fresh, CSD.find?_append, CSD.find?_cons_ne, CSD.find?_nil,
        hP md j .ipW (Nat.le_refl j), hR md j .ipW (Nat.le_refl j), hsepW]
    have h2 : renameKey (P ++ ((⟨md, .vis j .qkvB⟩, t.2)
          :: (mkVisFused md (j + 1) ts ++ (R ++ [(⟨md, .vis j .ipW⟩, t.1)]))))
          ⟨md, .vis j .qkvB⟩ ⟨md, .vis j .ipB⟩
        = .ok (P ++ (mkVisFused md (j + 1) ts
            ++ ((R ++ [(⟨md, .vis j .ipW⟩, t.1)]) ++ [(⟨md, .vis j .ipB⟩, t.2)]))) := by
      simp [renameKey, CSD.pop_append_left _ (hP md j .qkvB (Nat.le_refl j)),
        CSD.pop_cons_eq, Except.map, CSD.set_append_left, CSD.set_cons_ne,
        CSD.set_append_fresh, CSD.find?_append, CSD.find?_cons_ne, CSD.find?_nil,
        hP md j .ipB (Nat.le_refl j), hR md j .ipB (Nat.le_refl j), hsepB]
    have hR' : ∀ (m' : Bool) (j' : ℕ) (f : VisF), j + 1 ≤ j' →
        CSD.find? ((R ++ [(⟨md, .vis j .ipW⟩, t.1)]) ++ [(⟨md, .vis j .ipB⟩, t.2)])
          ⟨m', .vis j' f⟩ = none := by
      intro m' j' f hj'
      rw [CSD.find?_append, CSD.find?_append, hR m' j' f (by omega)]
      rw [CSD.find?_cons_ne (by
        intro he
        rw [SKey.mk.injEq] at he
        obtain ⟨-, hcore⟩ := he
        rw [CoreKey.vis.injEq] at hcore
        omega)]
      rw [CSD.find?_cons_ne (by
        intro he
        rw [SKey.mk.injEq] at he
        obtain ⟨-, hcore⟩ := he
        rw [CoreKey.vis.injEq] at hcore
        omega)]
      rfl
    have hrec := visF2S_run md ts (j + 1) P
      ((R ++ [(⟨md, .vis j .ipW⟩, t.1)]) ++ [(⟨md, .vis j .ipB⟩, t.2)])
      (fun m' j' f hj' => hP m' j' f (by omega)) hR'
    rw [hkeys, hd0, visF2S_cons_qkvW, h1, tmBind_ok, visF2S_cons_qkvB, h2, tmBind_ok, hrec]
    rw [mkVisSep]
    simp

/-- The separate and the re-separated text regions agree on every lookup (the
same eight bindings per layer, stored in a different order). -/
theorem mkBert_sep_resep_find? {α : Type} (md : Bool) :
    ∀ (ls : List (BertSepLayer α)) (i0 : ℕ) (m' : Bool) (i : ℕ) (f : BertF),
      CSD.find? (mkBertResep md i0 ls) ⟨m', .bert i f⟩
        = CSD.find? (mkBertSep md i0 ls) ⟨m', .bert i f⟩
  | [], _, _, _, _ => rfl
  | l :: ls, i0, m', i, f => by
    rw [mkBertSep, mkBertResep, CSD.find?_append, CSD.find?_append,
      mkBert_sep_resep_find? md ls (i0 + 1) m' i f]
    congr 1
    by_cases hmi : m' = md ∧ i = i0
    · obtain ⟨rfl, rfl⟩ := hmi
      cases f <;> simp [bertSepEntries, bertResepEntries, CSD.find?]
    · have h8 : ∀ (v : List α) (f' : BertF), ((⟨md, .bert i0 f'⟩ : SKey), v).1
          ≠ (⟨m', .bert i f⟩ : SKey) := by
        intro v f' he
        rw [SKey.mk.injEq, CoreKey.bert.injEq] at he
        exact hmi ⟨he.1.symm, he.2.1.symm⟩
      rw [CSD.find?_eq_none (by
        intro kv hkv
        rcases (by simpa [bertResepEntries] using hkv : kv = (⟨md, .bert i0 .qW⟩, l.qw)
            ∨ kv = (⟨md, .bert i0 .kW⟩, l.kw) ∨ kv = (⟨md, .bert i0 .vW⟩, l.vw)
            ∨ kv = (⟨md, .bert i0 .qB⟩, l.qb) ∨ kv = (⟨md, .bert i0 .kB⟩, l.kb)
            ∨ kv = (⟨md, .bert i0 .vB⟩, l.vb) ∨ kv = (⟨md, .bert i0 .denseW⟩, l.dw)
            ∨ kv = (⟨md, .bert i0 .denseB⟩, l.db)) with
          h1 | h1 | h1 | h1 | h1 | h1 | h1 | h1 <;> (subst h1; exact h8 _ _))]
      rw [CSD.find?_eq_none (by
        intro kv hkv
        rcases (by simpa [bertSepEntries] using hkv : kv = (⟨md, .bert i0 .qW⟩, l.qw)
            ∨ kv = (⟨md, .bert i0 .qB⟩, l.qb) ∨ kv = (⟨md, .bert i0 .kW⟩, l.kw)
            ∨ kv = (⟨md, .bert i0 .kB⟩, l.kb) ∨ kv = (⟨md, .bert i0 .vW⟩, l.vw)
            ∨ kv = (⟨md, .bert i0 .vB⟩, l.vb) ∨ kv = (⟨md, .bert i0 .denseW⟩, l.dw)
            ∨ kv = (⟨md, .bert i0 .denseB⟩, l.db)) with
          h1 | h1 | h1 | h1 | h1 | h1 | h1 | h1 <;> (subst h1; exact h8 _ _))]

/-- Every key of the separate vision region carries the region's prefix flag. -/
theorem mem_mkVisSep_mod {α : Type} (md : Bool) :
    ∀ (ts : List (List α × List α)) (j : ℕ) (kv : SKey × List α),
      kv ∈ mkVisSep md j ts → kv.1.mod = md
  | [], _, _, h => absurd h (by simp [mkVisSep])
  | t :: ts, j, kv, h => by
    rw [mkVisSep] at h
    rcases List.mem_append.1 h with h2 | hrest
    · rcases (by simpa using h2 : kv = (⟨md, .vis j .ipW⟩, t.1)
          ∨ kv = (⟨md, .vis j .ipB⟩, t.2)) with h1 | h1 <;> (subst h1; rfl)
    · exact mem_mkVisSep_mod md ts (j + 1) kv hrest

/-- Every key of the separate text region carries the region's prefix flag. -/
theorem mem_mkBertSep_mod {α : Type} (md : Bool) :
    ∀ (ls : List (BertSepLayer α)) (i : ℕ) (kv : SKey × List α),
      kv ∈ mkBertSep md i ls → kv.1.mod = md
  | [], _, _, h => absurd h (by simp [mkBertSep])
  | l :: ls, i, kv, h => by
    rw [mkBertSep] at h
    rcases List.mem_append.1 h with h8 | hrest
    · rcases (by simpa [bertSepEntries] using h8 : kv = (⟨md, .bert i .qW⟩, l.qw)
          ∨ kv = (⟨md, .bert i .qB⟩, l.qb) ∨ kv = (⟨md, .bert i .kW⟩, l.kw)
          ∨ kv = (⟨md, .bert i .kB⟩, l.kb) ∨ kv = (⟨md, .bert i .vW⟩, l.vw)
          ∨ kv = (⟨md, .bert i .vB⟩, l.vb) ∨ kv = (⟨md, .bert i .denseW⟩, l.dw)
          ∨ kv = (⟨md, .bert i .denseB⟩, l.db)) with
        h1 | h1 | h1 | h1 | h1 | h1 | h1 | h1 <;> (subst h1; rfl)
    · exact mem_mkBertSep_mod md ls (i + 1) kv hrest

/-- Every key of the fused vision region carries the region's prefix flag. -/
theorem mem_mkVisFused_mod {α : Type} (md : Bool) :
    ∀ (ts : List (List α × List α)) (j : ℕ) (kv : SKey × List α),
      kv ∈ mkVisFused md j ts → kv.1.mod = md
  | [], _, _, h => absurd h (by simp [mkVisFused])
  | t :: ts, j, kv, h => by
    rw [mkVisFused] at h
    rcases List.mem_append.1 h with h2 | hrest
    · rcases (by simpa using h2 : kv = (⟨md, .vis j .qkvW⟩, t.1)
          ∨ kv = (⟨md, .vis j .qkvB⟩, t.2)) with h1 | h1 <;> (subst h1; rfl)
    · exact mem_mkVisFused_mod md ts (j + 1) kv hrest

/-- Every key of the fused text region carries the region's prefix flag. -/
theorem mem_mkBertFused_mod {α : Type} (md : Bool) :
    ∀ (ls : List (BertSepLayer α)) (i : ℕ) (kv : SKey × List α),
      kv ∈ mkBertFused md i ls → kv.1.mod = md
  | [], _, _, h => absurd h (by simp [mkBertFused])
  | l :: ls, i, kv, h => by
    rw [mkBertFused] at h
    rcases List.mem_append.1 h with h4 | hrest
    · rcases (by simpa [bertFusedEntries] using h4 :
          kv = (⟨md, .bert i .wqkvW⟩, l.qw ++ l.kw ++ l.vw)
          ∨ kv = (⟨md, .bert i .wqkvB⟩, l.qb ++ l.kb ++ l.vb)
          ∨ kv = (⟨md, .bert i .oprojW⟩, l.dw)
          ∨ kv = (⟨md, .bert i .oprojB⟩, l.db)) with
        h1 | h1 | h1 | h1 <;> (subst h1; rfl)
    · exact mem_mkBertFused_mod md ls (i + 1) kv hrest

/-- Region sizes: eight bindings per separate text layer. -/
theorem mkBertSep_length {α : Type} (md : Bool) :
    ∀ (ls : List (BertSepLayer α)) (i : ℕ), (mkBertSep md i ls).length = 8 * ls.length
  | [], _ => rfl
  | l :: ls, i => by
    rw [mkBertSep, List.length_append, mkBertSep_length md ls (i + 1)]
    simp [bertSepEntries]
    ring

/-- Region sizes: four bindings per fused text layer. -/
theorem mkBertFused_length {α : Type} (md : Bool) :
    ∀ (ls : List (BertSepLayer α)) (i : ℕ), (mkBertFused md i ls).length = 4 * ls.length
  | [], _ => rfl
  | l :: ls, i => by
    rw [mkBertFused, List.length_append, mkBertFused_length md ls (i + 1)]
    simp [bertFusedEntries]
    ring

/-- Every key of the separate text region has a text-layer core. -/
theorem mem_mkBertSep_core {α : Type} (md : Bool) :
    ∀ (ls : List (BertSepLayer α)) (i : ℕ) (kv : SKey × List α),
      kv ∈ mkBertSep md i ls → ∃ i' f, kv.1.core = CoreKey.bert i' f
  | [], _, _, h => absurd h (by simp [mkBertSep])
  | l :: ls, i, kv, h => by
    rw [mkBertSep] at h
    rcases List.mem_append.1 h with h8 | hrest
    · rcases (by simpa [bertSepEntries] using h8 : kv = (⟨md, .bert i .qW⟩, l.qw)
          ∨ kv = (⟨md, .bert i .qB⟩, l.qb) ∨ kv = (⟨md, .bert i .kW⟩, l.kw)
          ∨ kv = (⟨md, .bert i .kB⟩, l.kb) ∨ kv = (⟨md, .bert i .vW⟩, l.vw)
          ∨ kv = (⟨md, .bert i .vB⟩, l.vb) ∨ kv = (⟨md, .bert i .denseW⟩, l.dw)
          ∨ kv = (⟨md, .bert i .denseB⟩, l.db)) with
        h1 | h1 | h1 | h1 | h1 | h1 | h1 | h1 <;> (subst h1; exact ⟨i, _, rfl⟩)
    · exact mem_mkBertSep_core md ls (i + 1) kv hrest

/-- Every key of the fused text region has a text-layer core. -/
theorem mem_mkBertFused_core {α : Type} (md : Bool) :
    ∀ (ls : List (BertSepLayer α)) (i : ℕ) (kv : SKey × List α),
      kv ∈ mkBertFused md i ls → ∃ i' f, kv.1.core = CoreKey.bert i' f
  | [], _, _, h => absurd h (by simp [mkBertFused])
  | l :: ls, i, kv, h => by
    rw [mkBertFused] at h
    rcases List.mem_append.1 h with h4 | hrest
    · rcases (by simpa [bertFusedEntries] using h4 :
          kv = (⟨md, .bert i .wqkvW⟩, l.qw ++ l.kw ++ l.vw)
          ∨ kv = (⟨md, .bert i .wqkvB⟩, l.qb ++ l.kb ++ l.vb)
          ∨ kv = (⟨md, .bert i .oprojW⟩, l.dw)
          ∨ kv = (⟨md, .bert i .oprojB⟩, l.db)) with
        h1 | h1 | h1 | h1 <;> (subst h1; exact ⟨i, _, rfl⟩)
    · exact mem_mkBertFused_core md ls (i + 1) kv hrest

/-- Lookup misses the fused text region at any key outside the four fused field
names, even at a matching layer index. -/
theorem mkBertFused_find?_field {α : Type} (md : Bool) :
    ∀ (ls : List (BertSepLayer α)) (i0 : ℕ) (k : SKey),
      (∀ i, k ≠ ⟨md, .bert i .wqkvW⟩ ∧ k ≠ ⟨md, .bert i .wqkvB⟩
        ∧ k ≠ ⟨md, .bert i .oprojW⟩ ∧ k ≠ ⟨md, .bert i .oprojB⟩) →
      CSD.find? (mkBertFused md i0 ls) k = none
  | [], _, _, _ => rfl
  | l :: ls, i0, k, h => by
    rw [mkBertFused, CSD.find?_append]
    rw [CSD.find?_eq_none (d := bertFusedEntries md i0 l) (by
      intro kv hkv he
      rcases (by simpa [bertFusedEntries] using hkv :
          kv = (⟨md, .bert i0 .wqkvW⟩, l.qw ++ l.kw ++ l.vw)
          ∨ kv = (⟨md, .bert i0 .wqkvB⟩, l.qb ++ l.kb ++ l.vb)
          ∨ kv = (⟨md, .bert i0 .oprojW⟩, l.dw)
          ∨ kv = (⟨md, .bert i0 .oprojB⟩, l.db)) with
        h1 | h1 | h1 | h1
      · subst h1; exact (h i0).1 he.symm
      · subst h1; exact (h i0).2.1 he.symm
      · subst h1; exact (h i0).2.2.1 he.symm
      · subst h1; exact (h i0).2.2.2 he.symm)]
    rw [mkBertFused_find?_field md ls (i0 + 1) k h]
    rfl

/-- The fused-layout state dict produced by one conversion of a separate-layout
dict: the untouched keys (in their original relative order), then the renamed
vision entries, then the fused text entries, with query, key, value
concatenated in that order (see `bertFusedEntries`). -/
def mkFusedDict {α : Type} (md : Bool) (vis : List (List α × List α))
    (bert : List (BertSepLayer α)) (extra : List (String × List α)) : CSD α :=
  (mkExtras md extra ++ mkVisFused md 0 vis) ++ mkBertFused md 0 bert

/-- The state dict produced by converting the fused dict back: the same
bindings as the original separate dict, stored in a different order. -/
def mkResepDict {α : Type} (md : Bool) (vis : List (List α × List α))
    (bert : List (BertSepLayer α)) (extra : List (String × List α)) : CSD α :=
  (mkExtras md extra ++ mkVisSep md 0 vis) ++ mkBertResep md 0 bert

/-- Every key of a separate-layout dict carries its prefix flag. -/
theorem mem_mkSepDict_mod {α : Type} (md : Bool) (vis : List (List α × List α))
    (bert : List (BertSepLayer α)) (extra : List (String × List α))
    (kv : SKey × List α) (h : kv ∈ mkSepDict md vis bert extra) : kv.1.mod = md := by
  unfold mkSepDict at h
  rcases List.mem_append.1 h with h1 | hE
  · rcases List.mem_append.1 h1 with hS | hB
    · exact mem_mkVisSep_mod md vis 0 kv hS
    · exact mem_mkBertSep_mod md bert 0 kv hB
  · obtain ⟨s, hs⟩ := mem_mkExtras_raw md extra kv hE
    rw [hs]

/-- Every key of a fused-layout dict carries its prefix flag. -/
theorem mem_mkFusedDict_mod {α : Type} (md : Bool) (vis : List (List α × List α))
    (bert : List (BertSepLayer α)) (extra : List (String × List α))
    (kv : SKey × List α) (h : kv ∈ mkFusedDict md vis bert extra) : kv.1.mod = md := by
  unfold mkFusedDict at h
  rcases List.mem_append.1 h with h1 | hBF
  · rcases List.mem_append.1 h1 with hE | hV
    · obtain ⟨s, hs⟩ := mem_mkExtras_raw md extra kv hE
      rw [hs]
    · exact mem_mkVisFused_mod md vis 0 kv hV
  · exact mem_mkBertFused_mod md bert 0 kv hBF

/-- Evaluating the conversion body on a separate-layout dict (prefix flag
`true`): the vision `in_proj` entries are renamed to `Wqkv` names and the text
layers are fused with query, key, value concatenated in that order. -/
theorem convertPfx_sep_to_fused {α : Type} (vis : List (List α × List α))
    (bert : List (BertSepLayer α)) (extra : List (String × List α)) :
    convertStateDictPfx true (mkSepDict true vis bert extra)
      = .ok (mkFusedDict true vis bert extra) := by
  have hEvis : ∀ (m' : Bool) (j' : ℕ) (f : VisF),
      CSD.find? (mkExtras true extra) ⟨m', .vis j' f⟩ = none := fun m' j' f =>
    extras_find?_none true extra _ (fun s => by simp)
  have hEbert : ∀ (m' : Bool) (i' : ℕ) (f : BertF),
      CSD.find? (mkExtras true extra) ⟨m', .bert i' f⟩ = none := fun m' i' f =>
    extras_find?_none true extra _ (fun s => by simp)
  have hBvis : ∀ (m' : Bool) (j' : ℕ) (f : VisF),
      CSD.find? (mkBertSep true 0 bert) ⟨m', .vis j' f⟩ = none := fun m' j' f =>
    mkBertSep_find?_none true bert 0 _ (fun i f' hi => by simp)
  have hVFbert : ∀ (m' : Bool) (i' : ℕ) (f : BertF),
      CSD.find? (mkVisFused true 0 vis) ⟨m', .bert i' f⟩ = none := fun m' i' f =>
    mkVisFused_find?_none true vis 0 _ (fun j hj => ⟨by simp, by simp⟩)
  have hvis : (if ((mkSepDict true vis bert extra).find? ⟨true, .vis 0 .ipW⟩).isSome then
        visS2F (mkSepDict true vis bert extra) ((mkSepDict true vis bert extra).map Prod.fst)
      else if ((mkSepDict true vis bert extra).find? ⟨true, .vis 0 .qkvW⟩).isSome then
        visF2S (mkSepDict true vis bert extra) ((mkSepDict true vis bert extra).map Prod.fst)
      else .ok (mkSepDict true vis bert extra))
      = .ok (mkBertSep true 0 bert ++ (mkExtras true extra ++ mkVisFused true 0 vis)) := by
    cases vis with
    | nil =>
      have hp1 : CSD.find? (mkSepDict true [] bert extra) ⟨true, .vis 0 .ipW⟩ = none := by
        simp only [mkSepDict, mkVisSep, List.nil_append, CSD.find?_append,
          hBvis true 0 VisF.ipW, hEvis true 0 VisF.ipW, Option.none_or]
      have hp2 : CSD.find? (mkSepDict true [] bert extra) ⟨true, .vis 0 .qkvW⟩ = none := by
        simp only [mkSepDict, mkVisSep, List.nil_append, CSD.find?_append,
          hBvis true 0 VisF.qkvW, hEvis true 0 VisF.qkvW, Option.none_or]
      rw [if_neg (by rw [hp1]; simp), if_neg (by rw [hp2]; simp)]
      simp [mkSepDict, mkVisSep, mkVisFused]
    | cons t ts =>
      have hp1 : CSD.find? (mkSepDict true (t :: ts) bert extra) ⟨true, .vis 0 .ipW⟩
          = some t.1 := by
        rw [show mkSepDict true (t :: ts) bert extra
          = (⟨true, .vis 0 .ipW⟩, t.1) :: ((⟨true, .vis 0 .ipB⟩, t.2)
              :: (mkVisSep true 1 ts ++ mkBertSep true 0 bert ++ mkExtras true extra))
            from rfl]
        exact CSD.find?_cons_eq rfl
      rw [if_pos (by rw [hp1]; rfl)]
      have hkeys : (mkSepDict true (t :: ts) bert extra).map Prod.fst
          = (mkVisSep true 0 (t :: ts)).map Prod.fst
            ++ ((mkBertSep true 0 bert).map Prod.fst
              ++ (mkExtras true extra).map Prod.fst) := by
        simp [mkSepDict]
      have hassoc : mkSepDict true (t :: ts) bert extra
          = mkVisSep true 0 (t :: ts)
            ++ (mkBertSep true 0 bert ++ mkExtras true extra) := by
        simp [mkSepDict]
      rw [hkeys, hassoc, visS2F_keys_append]
      have hrun := visS2F_run true (t :: ts) 0 []
        (mkBertSep true 0 bert ++ mkExtras true extra)
        (fun m' j' f hj' => rfl)
        (fun m' j' f hj' => by
          rw [CSD.find?_append, hBvis m' j' f, hEvis m' j' f]
          rfl)
      simp only [List.nil_append] at hrun
      rw [hrun, tmBind_ok]
      have hskip : visS2F ((mkBertSep true 0 bert ++ mkExtras true extra)
            ++ mkVisFused true 0 (t :: ts))
          ((mkBertSep true 0 bert).map Prod.fst ++ (mkExtras true extra).map Prod.fst)
          = .ok ((mkBertSep true 0 bert ++ mkExtras true extra)
            ++ mkVisFused true 0 (t :: ts)) := by
        refine visS2F_skip_all _ _ ?_
        intro k hk j
        rcases List.mem_append.1 hk with hkB | hkE
        · obtain ⟨kv, hkv, rfl⟩ := List.mem_map.1 hkB
          obtain ⟨i', f', hcore⟩ := mem_mkBertSep_core true bert 0 kv hkv
          rw [hcore]
          exact ⟨by simp, by simp⟩
        · obtain ⟨kv, hkv, rfl⟩ := List.mem_map.1 hkE
          obtain ⟨s, hs⟩ := mem_mkExtras_raw true extra kv hkv
          rw [hs]
          exact ⟨by simp, by simp⟩
      rw [hskip]
      simp
  unfold convertStateDictPfx
  rw [hvis, tmBind_ok]
  cases bert with
  | nil =>
    have hq : CSD.find? (mkBertSep true 0 ([] : List (BertSepLayer α))
          ++ (mkExtras true extra ++ mkVisFused true 0 vis)) ⟨true, .bert 0 .qW⟩
        = none := by
      simp only [mkBertSep, List.nil_append, CSD.find?_append,
        hEbert true 0 BertF.qW, hVFbert true 0 BertF.qW, Option.none_or]
    have hw : CSD.find? (mkBertSep true 0 ([] : List (BertSepLayer α))
          ++ (mkExtras true extra ++ mkVisFused true 0 vis)) ⟨true, .bert 0 .wqkvW⟩
        = none := by
      simp only [mkBertSep, List.nil_append, CSD.find?_append,
        hEbert true 0 BertF.wqkvW, hVFbert true 0 BertF.wqkvW, Option.none_or]
    rw [if_neg (by rw [hq]; simp), if_neg (by rw [hw]; simp)]
    simp [mkBertSep, mkBertFused, mkFusedDict]
  | cons l ls =>
    have hq : CSD.find? (mkBertSep true 0 (l :: ls)
          ++ (mkExtras true extra ++ mkVisFused true 0 vis)) ⟨true, .bert 0 .qW⟩
        = some l.qw := by
      rw [show mkBertSep true 0 (l :: ls)
            ++ (mkExtras true extra ++ mkVisFused true 0 vis)
          = (⟨true, .bert 0 .qW⟩, l.qw) :: (((bertSepEntries true 0 l).tail
              ++ mkBertSep true 1 ls)
            ++ (mkExtras true extra ++ mkVisFused true 0 vis)) from rfl]
      exact CSD.find?_cons_eq rfl
    rw [if_pos (by rw [hq]; rfl)]
    have hrun := textS2F_run true (l :: ls) 0 []
      (mkExtras true extra ++ mkVisFused true 0 vis)
      ((mkBertSep true 0 (l :: ls)
        ++ (mkExtras true extra ++ mkVisFused true 0 vis)).length + 1)
      (by
        rw [List.length_append, mkBertSep_length]
        omega)
      (fun m' i' f hi' => rfl)
      (fun m' i' f hi' => by
        rw [CSD.find?_append, hEbert m' i' f, hVFbert m' i' f]
        rfl)
    simp only [List.nil_append] at hrun
    rw [hrun]
    rfl

/-- Evaluating the conversion body on the fused dict (prefix flag `true`, with
per-layer equal-length nonempty query/key/value tensors): the vision `Wqkv`
entries are renamed back to `in_proj` names and the text layers re-separated by
3-way chunking. -/
theorem convertPfx_fused_to_resep {α : Type} (vis : List (List α × List α))
    (bert : List (BertSepLayer α)) (extra : List (String × List α))
    (hlen : ∀ l ∈ bert,
      (l.qw.length = l.kw.length ∧ l.kw.length = l.vw.length ∧ 1 ≤ l.qw.length)
      ∧ (l.qb.length = l.kb.length ∧ l.kb.length = l.vb.length ∧ 1 ≤ l.qb.length)) :
    convertStateDictPfx true (mkFusedDict true vis bert extra)
      = .ok (mkResepDict true vis bert extra) := by
  have hEvis : ∀ (m' : Bool) (j' : ℕ) (f : VisF),
      CSD.find? (mkExtras true extra) ⟨m', .vis j' f⟩ = none := fun m' j' f =>
    extras_find?_none true extra _ (fun s => by simp)
  have hEbert : ∀ (m' : Bool) (i' : ℕ) (f : BertF),
      CSD.find? (mkExtras true extra) ⟨m', .bert i' f⟩ = none := fun m' i' f =>
    extras_find?_none true extra _ (fun s => by simp)
  have hBFvis : ∀ (m' : Bool) (j' : ℕ) (f : VisF),
      CSD.find? (mkBertFused true 0 bert) ⟨m', .vis j' f⟩ = none := fun m' j' f =>
    mkBertFused_find?_none true bert 0 _ (fun i f' hi => by simp)
  have hSbert : ∀ (m' : Bool) (i' : ℕ) (f : BertF),
      CSD.find? (mkVisSep true 0 vis) ⟨m', .bert i' f⟩ = none := fun m' i' f =>
    mkVisSep_find?_none true vis 0 _ (fun j hj => ⟨by simp, by simp⟩)
  have hvis : (if ((mkFusedDict true vis bert extra).find? ⟨true, .vis 0 .ipW⟩).isSome then
        visS2F (mkFusedDict true vis bert extra)
          ((mkFusedDict true vis bert extra).map Prod.fst)
      else if ((mkFusedDict true vis bert extra).find? ⟨true, .vis 0 .qkvW⟩).isSome then
        visF2S (mkFusedDict true vis bert extra)
          ((mkFusedDict true vis bert extra).map Prod.fst)
      else .ok (mkFusedDict true vis bert extra))
      = .ok (mkExtras true extra ++ (mkBertFused true 0 bert ++ mkVisSep true 0 vis)) := by
    cases vis with
    | nil =>
      have hp1 : CSD.find? (mkFusedDict true [] bert extra) ⟨true, .vis 0 .ipW⟩
          = none := by
        simp only [mkFusedDict, mkVisFused, List.append_nil, CSD.find?_append,
          hEvis true 0 VisF.ipW, hBFvis true 0 VisF.ipW, Option.none_or]
      have hp2 : CSD.find? (mkFusedDict true [] bert extra) ⟨true, .vis 0 .qkvW⟩
          = none := by
        simp only [mkFusedDict, mkVisFused, List.append_nil, CSD.find?_append,
          hEvis true 0 VisF.qkvW, hBFvis true 0 VisF.qkvW, Option.none_or]
      rw [if_neg (by rw [hp1]; simp), if_neg (by rw [hp2]; simp)]
      simp [mkFusedDict, mkVisFused, mkVisSep]
    | cons t ts =>
      have hVFip := mkVisFused_find?_none true (t :: ts) 0 (⟨true, .vis 0 .ipW⟩ : SKey)
        (fun j hj => ⟨by simp, by simp⟩)
      have hp1 : CSD.find? (mkFusedDict true (t :: ts) bert extra) ⟨true, .vis 0 .ipW⟩
          = none := by
        simp only [mkFusedDict, CSD.find?_append, hEvis true 0 VisF.ipW, hVFip,
          hBFvis true 0 VisF.ipW, Option.none_or]
      have hp2 : CSD.find? (mkFusedDict true (t :: ts) bert extra) ⟨true, .vis 0 .qkvW⟩
          = some t.1 := by
        unfold mkFusedDict
        rw [CSD.find?_append, CSD.find?_append, hEvis true 0 VisF.qkvW,
          (show CSD.find? (mkVisFused true 0 (t :: ts)) ⟨true, .vis 0 .qkvW⟩ = some t.1 by
            rw [show mkVisFused true 0 (t :: ts) = (⟨true, .vis 0 .qkvW⟩, t.1)
                :: ((⟨true, .vis 0 .qkvB⟩, t.2) :: mkVisFused true 1 ts) from rfl]
            exact CSD.find?_cons_eq rfl)]
        rfl
      rw [if_neg (by rw [hp1]; simp), if_pos (by rw [hp2]; rfl)]
      have hkeys : (mkFusedDict true (t :: ts) bert extra).map Prod.fst
          = (mkExtras true extra).map Prod.fst
            ++ ((mkVisFused true 0 (t :: ts)).map Prod.fst
              ++ (mkBertFused true 0 bert).map Prod.fst) := by
        simp [mkFusedDict]
      have hassoc : mkFusedDict true (t :: ts) bert extra
          = mkExtras true extra
            ++ (mkVisFused true 0 (t :: ts) ++ mkBertFused true 0 bert) := by
        simp [mkFusedDict]
      rw [hkeys, hassoc, visF2S_keys_append]
      have hskipE : visF2S (mkExtras true extra
            ++ (mkVisFused true 0 (t :: ts) ++ mkBertFused true 0 bert))
          ((mkExtras true extra).map Prod.fst)
          = .ok (mkExtras true extra
            ++ (mkVisFused true 0 (t :: ts) ++ mkBertFused true 0 bert)) := by
        refine visF2S_skip_all _ _ ?_
        intro k hk j
        obtain ⟨kv, hkv, rfl⟩ := List.mem_map.1 hk
        obtain ⟨s, hs⟩ := mem_mkExtras_raw true extra kv hkv
        rw [hs]
        exact ⟨by simp, by simp⟩
      rw [hskipE, tmBind_ok, visF2S_keys_append]
      have hrun := visF2S_run true (t :: ts) 0 (mkExtras true extra)
        (mkBertFused true 0 bert)
        (fun m' j' f hj' => hEvis m' j' f)
        (fun m' j' f hj' => hBFvis m' j' f)
      rw [hrun, tmBind_ok]
      have hskipBF : visF2S (mkExtras true extra
            ++ (mkBertFused true 0 bert ++ mkVisSep true 0 (t :: ts)))
          ((mkBertFused true 0 bert).map Prod.fst)
          = .ok (mkExtras true extra
            ++ (mkBertFused true 0 bert ++ mkVisSep true 0 (t :: ts))) := by
        refine visF2S_skip_all _ _ ?_
        intro k hk j
        obtain ⟨kv, hkv, rfl⟩ := List.mem_map.1 hk
        obtain ⟨i', f', hcore⟩ := mem_mkBertFused_core true bert 0 kv hkv
        rw [hcore]
        exact ⟨by simp, by simp⟩
      rw [hskipBF]
  unfold convertStateDictPfx
  rw [hvis, tmBind_ok]
  cases bert with
  | nil =>
    have hq : CSD.find? (mkExtras true extra
          ++ (mkBertFused true 0 ([] : List (BertSepLayer α)) ++ mkVisSep true 0 vis))
        ⟨true, .bert 0 .qW⟩ = none := by
      simp only [mkBertFused, List.nil_append, CSD.find?_append,
        hEbert true 0 BertF.qW, hSbert true 0 BertF.qW, Option.none_or]
    have hw : CSD.find? (mkExtras true extra
          ++ (mkBertFused true 0 ([] : List (BertSepLayer α)) ++ mkVisSep true 0 vis))
        ⟨true, .bert 0 .wqkvW⟩ = none := by
      simp only [mkBertFused, List.nil_append, CSD.find?_append,
        hEbert true 0 BertF.wqkvW, hSbert true 0 BertF.wqkvW, Option.none_or]
    rw [if_neg (by rw [hq]; simp), if_neg (by rw [hw]; simp)]
    simp [mkBertFused, mkBertResep, mkResepDict]
  | cons l ls =>
    have hBFq := mkBertFused_find?_field true (l :: ls) 0 (⟨true, .bert 0 .qW⟩ : SKey)
      (fun i => ⟨by simp, by simp, by simp, by simp⟩)
    have hq : CSD.find? (mkExtras true extra
          ++ (mkBertFused true 0 (l :: ls) ++ mkVisSep true 0 vis))
        ⟨true, .bert 0 .qW⟩ = none := by
      simp only [CSD.find?_append, hEbert true 0 BertF.qW, hBFq,
        hSbert true 0 BertF.qW, Option.none_or]
    have hw : CSD.find? (mkExtras true extra
          ++ (mkBertFused true 0 (l :: ls) ++ mkVisSep true 0 vis))
        ⟨true, .bert 0 .wqkvW⟩ = some (l.qw ++ l.kw ++ l.vw) := by
      rw [CSD.find?_append, hEbert true 0 BertF.wqkvW, Option.none_or]
      rw [show mkBertFused true 0 (l :: ls) ++ mkVisSep true 0 vis
          = (⟨true, .bert 0 .wqkvW⟩, l.qw ++ l.kw ++ l.vw)
            :: (((bertFusedEntries true 0 l).tail ++ mkBertFused true 1 ls)
              ++ mkVisSep true 0 vis) from rfl]
      exact CSD.find?_cons_eq rfl
    rw [if_neg (by rw [hq]; simp), if_pos (by rw [hw]; rfl)]
    have hrun := textF2S_run (l :: ls) 0 (mkExtras true extra) (mkVisSep true 0 vis)
      ((mkExtras true extra
        ++ (mkBertFused true 0 (l :: ls) ++ mkVisSep true 0 vis)).length + 1)
      (by
        rw [List.length_append, List.length_append, mkBertFused_length]
        omega)
      hlen
      (fun m' i' f hi' => hEbert m' i' f)
      (fun m' i' f hi' => hSbert m' i' f)
    rw [hrun]
    simp [mkResepDict]

/-- The re-separated dict agrees with the original separate dict on every
lookup (Python dict equality ignores insertion order). -/
theorem resep_find?_eq_sep {α : Type} (vis : List (List α × List α))
    (bert : List (BertSepLayer α)) (extra : List (String × List α)) (k : SKey) :
    CSD.find? (mkResepDict true vis bert extra) k
      = CSD.find? (mkSepDict true vis bert extra) k := by
  unfold mkResepDict mkSepDict
  rw [CSD.find?_append, CSD.find?_append, CSD.find?_append, CSD.find?_append]
  rcases k with ⟨m, core⟩
  rcases core with ⟨j, f⟩ | ⟨i, f⟩ | s
  · rw [extras_find?_none true extra _ (fun s' => by simp),
      mkBertResep_find?_none true bert 0 _ (fun i' f' hi' => by simp),
      mkBertSep_find?_none true bert 0 _ (fun i' f' hi' => by simp)]
    simp
  · rw [extras_find?_none true extra _ (fun s' => by simp),
      mkVisSep_find?_none true vis 0 _ (fun j' hj' => ⟨by simp, by simp⟩),
      mkBert_sep_resep_find? true bert 0 m i f]
    simp
  · rw [mkVisSep_find?_none true vis 0 _ (fun j' hj' => ⟨by simp, by simp⟩),
      mkBertResep_find?_none true bert 0 _ (fun i' f' hi' => by simp),
      mkBertSep_find?_none true bert 0 _ (fun i' f' hi' => by simp)]
    simp

/-- Claim C4 (amended): on a separate-layout state dict whose keys carry the
`module.` prefix — arbitrary vision blocks, text layers with equal-length
nonempty query/key/value tensors, arbitrary untouched keys —
`convert_state_dict` yields the fused layout with query, key, value
concatenated in that order (`mkFusedDict` via `bertFusedEntries`), and
applying `convert_state_dict` again succeeds and reproduces the original
bindings exactly: every key looks up to its original value, only the storage
order differs.  (Without the `module.` prefix the second application fails
with a `KeyError`, so the bijection does not hold "regardless of prefix" as
claimed; a separate counterexample theorem witnesses this.) -/
theorem convert_state_dict_round_trip {α : Type} (vis : List (List α × List α))
    (bert : List (BertSepLayer α)) (extra : List (String × List α))
    (hlen : ∀ l ∈ bert,
      (l.qw.length = l.kw.length ∧ l.kw.length = l.vw.length ∧ 1 ≤ l.qw.length)
      ∧ (l.qb.length = l.kb.length ∧ l.kb.length = l.vb.length ∧ 1 ≤ l.qb.length)) :
    convert_state_dict (mkSepDict true vis bert extra)
      = .ok (mkFusedDict true vis bert extra)
    ∧ convert_state_dict (mkFusedDict true vis bert extra)
      = .ok (mkResepDict true vis bert extra)
    ∧ ∀ k, CSD.find? (mkResepDict true vis bert extra) k
        = CSD.find? (mkSepDict true vis bert extra) k := by
  refine ⟨?_, ?_, fun k => resep_find?_eq_sep vis bert extra k⟩
  · unfold convert_state_dict
    by_cases h0 : (mkSepDict true vis bert extra).isEmpty
    · rw [if_pos h0]
      have hnil : mkSepDict true vis bert extra = [] := List.isEmpty_iff.1 h0
      have h3 : mkVisSep true 0 vis ++ mkBertSep true 0 bert ++ mkExtras true extra
          = [] := hnil
      obtain ⟨hSB, hE⟩ := List.append_eq_nil.1 h3
      obtain ⟨hS, hB⟩ := List.append_eq_nil.1 hSB
      have hv : vis = [] := by
        cases vis with
        | nil => rfl
        | cons t ts => simp [mkVisSep] at hS
      have hb : bert = [] := by
        cases bert with
        | nil => rfl
        | cons l ls => simp [mkBertSep, bertSepEntries] at hB
      have hx : extra = [] := by
        cases extra with
        | nil => rfl
        | cons p ps => simp [mkExtras] at hE
      subst hv hb hx
      rfl
    · rw [if_neg h0]
      have hne : mkSepDict true vis bert extra ≠ [] := by
        intro he
        rw [he] at h0
        exact h0 rfl
      obtain ⟨kv, rest, hcons⟩ := List.exists_cons_of_ne_nil hne
      have hpfx : (((mkSepDict true vis bert extra).head?).map
          (fun kv => kv.1.mod)).getD false = true := by
        rw [hcons]
        exact mem_mkSepDict_mod true vis bert extra kv
          (hcons ▸ List.mem_cons_self kv rest)
      rw [hpfx]
      exact convertPfx_sep_to_fused vis bert extra
  · unfold convert_state_dict
    by_cases h0 : (mkFusedDict true vis bert extra).isEmpty
    · rw [if_pos h0]
      have hnil : mkFusedDict true vis bert extra = [] := List.isEmpty_iff.1 h0
      have h3 : (mkExtras true extra ++ mkVisFused true 0 vis)
          ++ mkBertFused true 0 bert = [] := hnil
      obtain ⟨hEV, hBF⟩ := List.append_eq_nil.1 h3
      obtain ⟨hE, hV⟩ := List.append_eq_nil.1 hEV
      have hv : vis = [] := by
        cases vis with
        | nil => rfl
        | cons t ts => simp [mkVisFused] at hV
      have hb : bert = [] := by
        cases bert with
        | nil => rfl
        | cons l ls => simp [mkBertFused, bertFusedEntries] at hBF
      have hx : extra = [] := by
        cases extra with
        | nil => rfl
        | cons p ps => simp [mkExtras] at hE
      subst hv hb hx
      rfl
    · rw [if_neg h0]
      have hne : mkFusedDict true vis bert extra ≠ [] := by
        intro he
        rw [he] at h0
        exact h0 rfl
      obtain ⟨kv, rest, hcons⟩ := List.exists_cons_of_ne_nil hne
      have hpfx : (((mkFusedDict true vis bert extra).head?).map
          (fun kv => kv.1.mod)).getD false = true := by
        rw [hcons]
        exact mem_mkFusedDict_mod true vis bert extra kv
          (hcons ▸ List.mem_cons_self kv rest)
      rw [hpfx]
      exact convertPfx_fused_to_resep vis bert extra hlen

/-- Witness for the round-trip theorem at a concrete `module.`-prefixed dict:
one vision block, one text layer with length-1 query/key/value tensors, one
untouched key. -/
theorem convert_state_dict_round_trip_witness :
    (∀ l ∈ ([⟨[10], [11], [20], [21], [30], [31], [40], [41]⟩] : List (BertSepLayer ℤ)),
      (l.qw.length = l.kw.length ∧ l.kw.length = l.vw.length ∧ 1 ≤ l.qw.length)
      ∧ (l.qb.length = l.kb.length ∧ l.kb.length = l.vb.length ∧ 1 ≤ l.qb.length))
    ∧ (convert_state_dict (mkSepDict true [([(1 : ℤ)], [2])]
          [⟨[10], [11], [20], [21], [30], [31], [40], [41]⟩] [("logit_scale", [7])])
        = .ok (mkFusedDict true [([(1 : ℤ)], [2])]
          [⟨[10], [11], [20], [21], [30], [31], [40], [41]⟩] [("logit_scale", [7])])
      ∧ convert_state_dict (mkFusedDict true [([(1 : ℤ)], [2])]
          [⟨[10], [11], [20], [21], [30], [31], [40], [41]⟩] [("logit_scale", [7])])
        = .ok (mkResepDict true [([(1 : ℤ)], [2])]
          [⟨[10], [11], [20], [21], [30], [31], [40], [41]⟩] [("logit_scale", [7])])
      ∧ ∀ k, CSD.find? (mkResepDict true [([(1 : ℤ)], [2])]
          [⟨[10], [11], [20], [21], [30], [31], [40], [41]⟩] [("logit_scale", [7])]) k
        = CSD.find? (mkSepDict true [([(1 : ℤ)], [2])]
          [⟨[10], [11], [20], [21], [30], [31], [40], [41]⟩] [("logit_scale", [7])]) k) :=
  have hlen : ∀ l ∈ ([⟨[10], [11], [20], [21], [30], [31], [40], [41]⟩] :
      List (BertSepLayer ℤ)),
      (l.qw.length = l.kw.length ∧ l.kw.length = l.vw.length ∧ 1 ≤ l.qw.length)
      ∧ (l.qb.length = l.kb.length ∧ l.kb.length = l.vb.length ∧ 1 ≤ l.qb.length) := by
    intro l hl
    rw [List.mem_singleton] at hl
    subst hl
    exact ⟨⟨rfl, rfl, by decide⟩, ⟨rfl, rfl, by decide⟩⟩
  ⟨hlen, convert_state_dict_round_trip [([(1 : ℤ)], [2])]
    [⟨[10], [11], [20], [21], [30], [31], [40], [41]⟩] [("logit_scale", [7])] hlen⟩

end RETCLIP
